import Mathlib

/-!
# Verification of the obsidian-life-grid rendering core

A shallow embedding, in Lean 4, of the data model and the algorithms of the
life-grid plugin: the paint-plan builder, the day color resolution, the
spatial index, the period classifier, the age calculator, the color
utilities, the settings loader, the hover handler and the grid layout loop.
JavaScript numbers are modelled as rationals (`ℚ`) except where the source
performs a genuinely transcendental operation (`Math.pow(x, 2.4)` in the
luminance computation), which is modelled over the reals.  JavaScript
strings are modelled as `String` / `List Char`; all the strings the plugin
manipulates are ASCII, where JavaScript's UTF-16 code-unit order and Lean's
code-point order coincide.
-/

namespace LifeGrid

/-! ## JavaScript string primitives (ASCII fragment) -/

/-- JavaScript string `<` (lexicographic by code unit), on char lists. -/
def jsLtList : List Char → List Char → Bool
  | [], [] => false
  | [], _ :: _ => true
  | _ :: _, [] => false
  | a :: as, b :: bs =>
    if a.val < b.val then true
    else if b.val < a.val then false
    else jsLtList as bs

/-- JavaScript string `<=`: `a <= b` is `!(b < a)`. -/
def jsLeString (a b : String) : Bool :=
  !(jsLtList b.toList a.toList)

/-- Whitespace test used by `String.prototype.trim` (ASCII fragment). -/
def jsIsWS (c : Char) : Bool :=
  c = ' ' || c = '\t' || c = '\n' || c = '\r'

/-- `String.prototype.trim` on char lists. -/
def jsTrimList (l : List Char) : List Char :=
  ((l.dropWhile jsIsWS).reverse.dropWhile jsIsWS).reverse

/-- ASCII `toLowerCase` on a char. -/
def jsLowerChar (c : Char) : Char :=
  if 'A' ≤ c ∧ c ≤ 'Z' then Char.ofNat (c.toNat + 32) else c

/-- `String.prototype.toLowerCase` on char lists (ASCII fragment). -/
def jsLowerList (l : List Char) : List Char :=
  l.map jsLowerChar

/-- `color.trim().toLowerCase()` as performed by `colorToHex`. -/
def jsClean (l : List Char) : List Char :=
  jsLowerList (jsTrimList l)

/-- `String.prototype.trim` on strings. -/
def jsTrim (s : String) : String :=
  String.mk (jsTrimList s.toList)

/-- `String.prototype.toLowerCase` on strings. -/
def jsLower (s : String) : String :=
  String.mk (jsLowerList s.toList)

/-! ## Spatial index (src/unnamed/part_001 `SpatialIndex`, main.ts
`addToSpatialIndex` / `getNearbyCells`)

The source stores buckets in a `Map` keyed by the string `"gx,gy"`; that
encoding is injective on integer pairs, so the index is modelled directly
as a function from the integer pair to the bucket's occupant list. -/

/-- `ClickableDay`: one interactive dot of the main grid. -/
structure ClickableDay where
  date : String
  cx : ℚ
  cy : ℚ
  radius : ℚ
  color : String
  deriving DecidableEq, Repr

/-- The bucket map: `"gx,gy" -> ClickableDay[]`. -/
def SpatialMap : Type := ℤ × ℤ → List ClickableDay

/-- The empty spatial index. -/
def SpatialMap.empty : SpatialMap := fun _ => []

/-- `SpatialIndex.add` / `addToSpatialIndex`: push the day onto the bucket
`(floor(cx / cellSize), floor(cy / cellSize))`. -/
def SpatialMap.add (cellSize : ℚ) (m : SpatialMap) (day : ClickableDay) :
    SpatialMap :=
  let gx : ℤ := ⌊day.cx / cellSize⌋
  let gy : ℤ := ⌊day.cy / cellSize⌋
  fun k => if k = (gx, gy) then m k ++ [day] else m k

/-- Build the index by inserting a list of entries in order. -/
def SpatialMap.build (cellSize : ℚ) (entries : List ClickableDay) :
    SpatialMap :=
  entries.foldl (SpatialMap.add cellSize) SpatialMap.empty

/-- `SpatialIndex.getNearbyCells`: union of the 3×3 block of buckets around
the bucket containing `(x, y)`, in the source's `dx`-major order. -/
def SpatialMap.getNearbyCells (cellSize : ℚ) (m : SpatialMap) (x y : ℚ) :
    List ClickableDay :=
  let gx : ℤ := ⌊x / cellSize⌋
  let gy : ℤ := ⌊y / cellSize⌋
  (List.range 3).foldl
    (fun acc dx =>
      (List.range 3).foldl
        (fun acc2 dy => acc2 ++ m (gx + dx - 1, gy + dy - 1)) acc)
    []

/-- The default cell size `Theme.GRID_CELL_SIZE`. -/
def GRID_CELL_SIZE : ℚ := 50

/-! ## Periods (main.ts `isDateInPeriod` and `periods.find`) -/

/-- A user-configured period. -/
structure Period where
  start : String
  pEnd : String
  color : String
  label : Option String
  deriving DecidableEq, Repr

/-- `isDateInPeriod` (main.ts:438, part_002:319): the period's effective end
is today's date string when `end` trims to empty or equals "present";
containment is the JavaScript lexicographic string comparison. -/
def isDateInPeriod (todayStr : String) (date : String) (p : Period) : Bool :=
  let periodEnd :=
    if jsTrim p.pEnd = "" ∨ jsLower p.pEnd = "present" then todayStr
    else p.pEnd
  jsLeString p.start date && jsLeString date periodEnd

/-- `periods.find((p) => isDateInPeriod(dayStr, p))`: first declared match. -/
def findPeriod (todayStr : String) (periods : List Period) (date : String) :
    Option Period :=
  periods.find? (isDateInPeriod todayStr date)

/-- The `periodColor` attached to a day record by the paint-plan builder. -/
def periodColorFor (todayStr : String) (periods : List Period)
    (date : String) : Option String :=
  (findPeriod todayStr periods date).map Period.color

/-! ## Settings loading (main.ts `loadSettings`, `DEFAULT_SETTINGS`) -/

/-- The persisted settings record. -/
structure LifeGridSettings where
  birthday : String
  maxAge : ℚ
  dailyNoteFormat : String
  dailyNoteFolder : String
  periods : List Period
  deriving DecidableEq, Repr

/-- `DEFAULT_SETTINGS` (main.ts / src/types/Settings). -/
def DEFAULT_SETTINGS : LifeGridSettings :=
  { birthday := ""
    maxAge := 95
    dailyNoteFormat := "YYYY-MM-DD"
    dailyNoteFolder := ""
    periods := [] }

/-- The data blob returned by `loadData()`: each key may be absent. -/
structure LoadedData where
  birthday : Option String
  maxAge : Option ℚ
  dailyNoteFormat : Option String
  dailyNoteFolder : Option String
  periods : Option (List Period)
  deriving DecidableEq, Repr

/-- `loadSettings` (main.ts:1637): `Object.assign({}, DEFAULT_SETTINGS,
await this.loadData())` — a shallow merge in which every key present in the
loaded blob overrides the default, with no validation of any kind. -/
def loadSettings (data : LoadedData) : LifeGridSettings :=
  { birthday := data.birthday.getD DEFAULT_SETTINGS.birthday
    maxAge := data.maxAge.getD DEFAULT_SETTINGS.maxAge
    dailyNoteFormat := data.dailyNoteFormat.getD DEFAULT_SETTINGS.dailyNoteFormat
    dailyNoteFolder := data.dailyNoteFolder.getD DEFAULT_SETTINGS.dailyNoteFolder
    periods := data.periods.getD DEFAULT_SETTINGS.periods }

/-- The birthday pattern `^\d{4}-\d{2}-\d{2}$` checked by the settings tab
(src/src/LifeGridSettingTab.ts:41) — but never by `loadSettings`. -/
def matchesBirthdayPattern (s : String) : Bool :=
  match s.toList with
  | [a, b, c, d, h1, e, f, h2, g, h] =>
    a.isDigit && b.isDigit && c.isDigit && d.isDigit && h1 = '-' &&
    e.isDigit && f.isDigit && h2 = '-' && g.isDigit && h.isDigit
  | _ => false

/-! ## Calendar model

A `Date` holds the components the source reads off a JavaScript `Date`:
`getFullYear()`, `getMonth()` (0-based) and `getDate()` (1-based).  The
render path forces all dates to local midnight, and the source only ever
steps dates by whole days (`d.setDate(d.getDate() + 1)`), so a date is
fully described by its components and time arithmetic reduces to day
counts (modelled without DST, i.e. every day lasts exactly 86 400 000 ms,
matching the spec's idealized reading of `getTime()` differences). -/

structure Date where
  year : ℕ
  month : ℕ
  day : ℕ
  deriving DecidableEq, Repr

/-- Gregorian leap-year rule (as implemented by JavaScript `Date`). -/
def isLeapYear (y : ℕ) : Bool :=
  (y % 4 = 0 && y % 100 ≠ 0) || y % 400 = 0

/-- Length of the 0-based month `m` of year `y`. -/
def daysInMonth (y m : ℕ) : ℕ :=
  if m = 1 then (if isLeapYear y then 29 else 28)
  else if m = 3 ∨ m = 5 ∨ m = 8 ∨ m = 10 then 30
  else 31

/-- Length of year `y` in days. -/
def daysInYear (y : ℕ) : ℕ :=
  if isLeapYear y then 366 else 365

/-- Days in the months of year `y` strictly before 0-based month `m`. -/
def daysBeforeMonth (y : ℕ) : ℕ → ℕ
  | 0 => 0
  | m + 1 => daysBeforeMonth y m + daysInMonth y m

/-- Days in all years strictly before year `y` (day-count epoch at
0000-01-01; only differences ever matter). -/
def daysBeforeYear : ℕ → ℕ
  | 0 => 0
  | y + 1 => daysBeforeYear y + daysInYear y

/-- Linear day number of a date, the analogue of `getTime()` divided by the
milliseconds in a day.  Defined for arbitrary `day` so that the JavaScript
`new Date(y, m, d)` day-overflow normalization (e.g. Feb 29 of a non-leap
year becoming Mar 1) is automatic. -/
def dayNumber (d : Date) : ℤ :=
  (daysBeforeYear d.year : ℤ) + daysBeforeMonth d.year d.month + d.day - 1

/-- Milliseconds in a day (`1000 * 60 * 60 * 24`). -/
def msPerDay : ℚ := 1000 * 60 * 60 * 24

/-- `getTime()` of a local-midnight date, in the idealized DST-free model. -/
def getTime (d : Date) : ℚ :=
  (dayNumber d : ℚ) * msPerDay

/-- A structurally valid calendar date (what a normalized JavaScript `Date`
holds): month in 0..11, day in 1..month length. -/
def ValidDate (d : Date) : Prop :=
  d.month ≤ 11 ∧ 1 ≤ d.day ∧ d.day ≤ daysInMonth d.year d.month

instance (d : Date) : Decidable (ValidDate d) := by
  unfold ValidDate; infer_instance

/-- `d.setDate(d.getDate() + 1)` on a valid date: step to the next day. -/
def nextDate (d : Date) : Date :=
  if d.day < daysInMonth d.year d.month then ⟨d.year, d.month, d.day + 1⟩
  else if d.month < 11 then ⟨d.year, d.month + 1, 1⟩
  else ⟨d.year + 1, 0, 1⟩

/-- The date `n` days after `d`. -/
def advance (n : ℕ) (d : Date) : Date :=
  nextDate^[n] d

/-- `padStart(2, "0")` of a decimal-rendered number. -/
def pad2 (n : ℕ) : String :=
  if n < 10 then "0" ++ toString n else toString n

/-- `getLocalDateString` (main.ts:267): `YYYY-MM-DD` from local components
(month rendered 1-based). -/
def getLocalDateString (d : Date) : String :=
  toString d.year ++ "-" ++ pad2 (d.month + 1) ++ "-" ++ pad2 d.day

/-! ## Paint-plan builder (main.ts:422-461, part_002 `buildPaintArray`) -/

/-- JavaScript truthiness of an optional string (absent and `""` falsy). -/
def jsTruthyStr (o : Option String) : Bool :=
  match o with
  | some s => s ≠ ""
  | none => false

/-- `DayPaint`: the per-day instruction.  The source attaches the `color`
property only when the frontmatter color is truthy
(`...(color ? { color } : {})`) and downstream reads only test truthiness,
so the property is modelled as an `Option` that is `none` when the looked-up
color is absent or empty. -/
structure DayPaint where
  date : String
  isToday : Bool
  hasNote : Bool
  periodColor : Option String
  color : Option String
  deriving DecidableEq, Repr

/-- A paint instruction: `YearPaint` or `DayPaint`. -/
inductive Paint where
  | year (y : ℕ)
  | day (rec : DayPaint)
  deriving DecidableEq, Repr

/-- The inputs the builder loop reads besides the running date. -/
structure BuildEnv where
  todayStr : String
  dailyNoteSet : List String
  dayToFilePath : List (String × String)
  dayToColor : List (String × String)
  periods : List Period
  deriving Repr

/-- The instructions one loop iteration (index `i`, date `d`) pushes:
a year marker when `i == 0` or the day is January 1st, and a day marker
unless the day is a January 1st other than the very first day. -/
def paintEntriesFor (env : BuildEnv) (d : Date) (i : ℕ) : List Paint :=
  (if i = 0 ∨ (d.month = 0 ∧ d.day = 1) then [Paint.year d.year] else []) ++
  (if ¬(d.month = 0 ∧ d.day = 1 ∧ i ≠ 0) then
    (let dayStr := getLocalDateString d
     let rawColor := env.dayToColor.lookup dayStr
     [Paint.day
       { date := dayStr
         isToday := dayStr = env.todayStr
         hasNote := env.dailyNoteSet.contains dayStr &&
           jsTruthyStr (env.dayToFilePath.lookup dayStr)
         periodColor := periodColorFor env.todayStr env.periods dayStr
         color := if jsTruthyStr rawColor then rawColor else none }])
   else [])

/-- The builder loop from date `d` at index `i`, with `remaining`
iterations left to run. -/
def buildPaintFrom (env : BuildEnv) : Date → ℕ → ℕ → List Paint
  | _, _, 0 => []
  | d, i, r + 1 => paintEntriesFor env d i ++ buildPaintFrom env (nextDate d) (i + 1) r

/-- `buildPaintArray`: the loop runs `totalDays + 1` iterations
(`for (let i = 0; i <= totalDays; i++)`), starting at `startDate`, where
`totalDays = round((endDate - startDate) / msPerDay)`. -/
def buildPaintArray (env : BuildEnv) (startDate : Date) (totalDays : ℕ) :
    List Paint :=
  buildPaintFrom env startDate 0 (totalDays + 1)

/-- Number of `DayMarker` instructions in a paint plan. -/
def countDayMarkers (l : List Paint) : ℕ :=
  l.countP (fun p => match p with | Paint.day _ => true | _ => false)

/-- Number of `YearMarker` instructions in a paint plan. -/
def countYearMarkers (l : List Paint) : ℕ :=
  l.countP (fun p => match p with | Paint.year _ => true | _ => false)

/-! ## Color utilities (src/src/utils/colorUtils.ts, and the identical
helper copies inside main.ts)

`parseInt(s, 16)` yields `NaN` on a non-hex string and `Math.pow` is the
only transcendental operation; `NaN` is modelled by `Option` (absent value)
and the gamma curve over the reals. -/

/-- `hex.replace("#", "")`: JavaScript `replace` with a string pattern
removes only the first occurrence. -/
def removeFirstHash : List Char → List Char
  | [] => []
  | c :: cs => if c = '#' then cs else c :: removeFirstHash cs

/-- 3-digit shorthand expansion `hex[0]+hex[0]+hex[1]+hex[1]+hex[2]+hex[2]`,
applied when the string (after `#`-removal) has length 3. -/
def expandHex3 (l : List Char) : List Char :=
  match l with
  | [a, b, c] => [a, a, b, b, c, c]
  | _ => l

/-- Value of a hex digit (`parseInt` accepts both letter cases). -/
def hexDigitVal (c : Char) : Option ℕ :=
  if '0' ≤ c ∧ c ≤ '9' then some (c.toNat - '0'.toNat)
  else if 'a' ≤ c ∧ c ≤ 'f' then some (c.toNat - 'a'.toNat + 10)
  else if 'A' ≤ c ∧ c ≤ 'F' then some (c.toNat - 'A'.toNat + 10)
  else none

/-- `parseInt(s, 16)`: parse the maximal hex-digit prefix, `NaN` (here
`none`) when there is none.  The callers only ever pass bare digit
substrings, so the sign/whitespace prelude of `parseInt` is irrelevant. -/
def jsParseIntHex (l : List Char) : Option ℕ :=
  let digits := l.takeWhile (fun c => (hexDigitVal c).isSome)
  if digits = [] then none
  else some (digits.foldl (fun acc c => acc * 16 + (hexDigitVal c).getD 0) 0)

/-- `substring(a, b)` on char lists (clamping, like JavaScript). -/
def jsSubstring (l : List Char) (a b : ℕ) : List Char :=
  (l.take b).drop a

/-- The three channel bytes read by `getLuminance` / `adjustColor`:
`parseInt(hex.substring(0,2),16)`, `(2,4)`, `(4,6)` after `#`-removal and
3-digit expansion; `none` for a channel models `NaN`. -/
def getChannels (hex : String) : Option ℕ × Option ℕ × Option ℕ :=
  let l := expandHex3 (removeFirstHash hex.toList)
  (jsParseIntHex (jsSubstring l 0 2),
   jsParseIntHex (jsSubstring l 2 4),
   jsParseIntHex (jsSubstring l 4 6))

/-- The piecewise sRGB linearization
`v <= 0.03928 ? v / 12.92 : ((v + 0.055) / 1.055) ** 2.4`, on a rational
channel value, landing in the reals because of the exponent 2.4. -/
noncomputable def srgbLinear (v : ℚ) : ℝ :=
  if v ≤ 0.03928 then ((v : ℝ) / 12.92)
  else (((v : ℝ) + 0.055) / 1.055) ^ (2.4 : ℝ)

/-- `getLuminance` (colorUtils.ts:15): ITU-R BT.709 weighted sum of the
linearized channels; `none` models the `NaN` produced by an unparsable
channel. -/
noncomputable def getLuminance (hex : String) : Option ℝ :=
  match getChannels hex with
  | (some r, some g, some b) =>
    some (0.2126 * srgbLinear ((r : ℚ) / 255) +
          0.7152 * srgbLinear ((g : ℚ) / 255) +
          0.0722 * srgbLinear ((b : ℚ) / 255))
  | _ => none

/-- `NaN`-aware `<`: a JavaScript comparison against `NaN` is false. -/
def optLt (o : Option ℝ) (c : ℝ) : Prop :=
  ∃ x, o = some x ∧ x < c

noncomputable instance (o : Option ℝ) (c : ℝ) : Decidable (optLt o c) :=
  Classical.propDecidable _

/-- Hex digit char of a value below 16 (lowercase, as
`Number.prototype.toString(16)` renders). -/
def toHexChar (n : ℕ) : Char :=
  if n < 10 then Char.ofNat ('0'.toNat + n) else Char.ofNat ('a'.toNat + n - 10)

/-- `n.toString(16)` digits, fuelled so the recursion is structural (the
fuel `n + 1` always suffices because `n / 16 < n` for `n ≥ 16`). -/
def toHexDigitsAux : ℕ → ℕ → List Char
  | 0, _ => []
  | fuel + 1, n =>
    if n < 16 then [toHexChar n]
    else toHexDigitsAux fuel (n / 16) ++ [toHexChar (n % 16)]

/-- `n.toString(16)` digits of a natural number. -/
def toHexDigits (n : ℕ) : List Char :=
  toHexDigitsAux (n + 1) n

/-- A channel rendered by `adjustColor`:
`ch.toString(16).padStart(2, "0")`, where a `NaN` channel renders as the
three-character string `"NaN"` (which `padStart(2)` leaves alone). -/
def renderChannel (o : Option ℤ) : List Char :=
  match o with
  | some v =>
    let digits := toHexDigits v.toNat
    if digits.length < 2 then '0' :: digits else digits
  | none => ['N', 'a', 'N']

/-- `Math.min(255, Math.max(0, ch + amount))` with `NaN` propagation. -/
def clampChannel (o : Option ℕ) (amount : ℤ) : Option ℤ :=
  o.map (fun v => min 255 (max 0 ((v : ℤ) + amount)))

/-- `adjustColor` (colorUtils.ts:140): per-channel add-and-clamp, then
re-render as `"#rrggbb"`. -/
def adjustColor (hex : String) (amount : ℤ) : String :=
  match getChannels hex with
  | (r, g, b) =>
    String.mk ('#' :: (renderChannel (clampChannel r amount) ++
      renderChannel (clampChannel g amount) ++
      renderChannel (clampChannel b amount)))

/-- `Theme.LIGHT_COLOR_THRESHOLD`. -/
noncomputable def LIGHT_COLOR_THRESHOLD : ℝ := 0.5

/-- `Theme.COLOR_LIGHTEN_AMOUNT`. -/
def COLOR_LIGHTEN_AMOUNT : ℤ := 50

/-- `getNoteColor` (colorUtils.ts:172, identical helper in main.ts:374):
fallback when the period color is falsy, otherwise lighten by 50 when the
period color's luminance is below the 0.5 threshold and darken by 50
otherwise (a `NaN` luminance compares false and so darkens). -/
noncomputable def getNoteColor (periodColor : Option String)
    (fallback : String) : String :=
  match periodColor with
  | none => fallback
  | some pc =>
    if pc = "" then fallback
    else if optLt (getLuminance pc) LIGHT_COLOR_THRESHOLD then
      adjustColor pc COLOR_LIGHTEN_AMOUNT
    else adjustColor pc (-COLOR_LIGHTEN_AMOUNT)

/-- `Theme.SQUARE_DEFAULT_COLOR` (main.ts:1722). -/
def SQUARE_DEFAULT_COLOR : String := "#23272e"

/-- `Theme.SQUARE_NOTE_COLOR` (main.ts:1728). -/
def SQUARE_NOTE_COLOR : String := "#6fcf97"

/-! ## Day color resolution (main.ts:553-561) -/

/-- The fill color of a day dot, translated from the sequence of
conditional reassignments in the render loop:
`color = SQUARE_DEFAULT_COLOR`; `if (item.periodColor) color =
item.periodColor`; `if (item.hasNote) color = getNoteColor(item.periodColor)`;
`if (item.color) color = item.color`. -/
noncomputable def resolveDayColor (item : DayPaint) : String :=
  let c0 := SQUARE_DEFAULT_COLOR
  let c1 := if jsTruthyStr item.periodColor then item.periodColor.getD "" else c0
  let c2 := if item.hasNote then getNoteColor item.periodColor SQUARE_NOTE_COLOR
            else c1
  if jsTruthyStr item.color then item.color.getD "" else c2

/-! ## `colorToHex`, pure-parsing variant (src/src/utils/colorUtils.ts:66)

The source tests `/^[0-9a-f]{6}$/i`, `/^[0-9a-f]{3}$/i` and searches
(unanchored) for `/rgba?\s*\(\s*(\d+)\s*,\s*(\d+)\s*,\s*(\d+)/`; every
quantifier in that pattern is deterministic (maximal munch never needs
backtracking here, since a digit can satisfy neither `\s*` nor a literal
`,` or `(`), so the regex is translated to a direct scanner that tries each
start position left to right.  The color-name table is the object literal,
modelled as a finite map. -/

/-- Case-insensitive hex-digit test (`[0-9a-f]` with the `i` flag). -/
def isHexDigitCI (c : Char) : Bool :=
  ('0' ≤ c && c ≤ '9') || ('a' ≤ c && c ≤ 'f') || ('A' ≤ c && c ≤ 'F')

/-- `/^[0-9a-f]{n}$/i`. -/
def isHexLen (n : ℕ) (l : List Char) : Bool :=
  l.length = n && l.all isHexDigitCI

/-- Decimal value of a digit run, for `parseInt(match[k])`. -/
def digitsToNat (l : List Char) : ℕ :=
  l.foldl (fun acc c => acc * 10 + (c.toNat - '0'.toNat)) 0

/-- `\s*(\d+)\s*` followed by the literal `stop`: greedy scan returning the
captured number and the remainder after `stop`. -/
def scanNumThen (stop : Char) (l : List Char) : Option (ℕ × List Char) :=
  let l1 := l.dropWhile jsIsWS
  let ds := l1.takeWhile Char.isDigit
  if ds = [] then none
  else
    match (l1.dropWhile Char.isDigit).dropWhile jsIsWS with
    | c :: rest => if c = stop then some (digitsToNat ds, rest) else none
    | [] => none

/-- Attempt the rgb pattern at the head of the list:
`rgba?\s*\(\s*(\d+)\s*,\s*(\d+)\s*,\s*(\d+)`. -/
def tryRgbAt (l : List Char) : Option (ℕ × ℕ × ℕ) :=
  match l with
  | 'r' :: 'g' :: 'b' :: rest =>
    let rest := match rest with
      | 'a' :: r2 => r2
      | _ => rest
    match (rest.dropWhile jsIsWS) with
    | '(' :: r3 =>
      match scanNumThen ',' r3 with
      | some (a, r4) =>
        match scanNumThen ',' r4 with
        | some (b, r5) =>
          let r6 := r5.dropWhile jsIsWS
          let ds := r6.takeWhile Char.isDigit
          if ds = [] then none else some (a, b, digitsToNat ds)
        | none => none
      | none => none
    | _ => none
  | _ => none

/-- The unanchored regex search: try every start position, leftmost first
(`cleanColor.match(...)`). -/
def rgbSearch : List Char → Option (ℕ × ℕ × ℕ)
  | [] => none
  | c :: rest =>
    match tryRgbAt (c :: rest) with
    | some x => some x
    | none => rgbSearch rest

/-- `n.toString(16).padStart(2, "0")`. -/
def toHexPad2 (n : ℕ) : List Char :=
  let digits := toHexDigits n
  if digits.length < 2 then '0' :: digits else digits

/-- The `colorNames` object literal (colorUtils.ts:93). -/
def colorNames : List (String × String) :=
  [("red", "#ff0000"), ("green", "#008000"), ("blue", "#0000ff"),
   ("yellow", "#ffff00"), ("orange", "#ffa500"), ("purple", "#800080"),
   ("pink", "#ffc0cb"), ("brown", "#a52a2a"), ("black", "#000000"),
   ("white", "#ffffff"), ("gray", "#808080"), ("grey", "#808080"),
   ("cyan", "#00ffff"), ("magenta", "#ff00ff"), ("lime", "#00ff00"),
   ("maroon", "#800000"), ("navy", "#000080"), ("olive", "#808000"),
   ("teal", "#008080"), ("silver", "#c0c0c0"), ("gold", "#ffd700"),
   ("violet", "#ee82ee"), ("indigo", "#4b0082"), ("turquoise", "#40e0d0"),
   ("coral", "#ff7f50"), ("salmon", "#fa8072"), ("khaki", "#f0e68c"),
   ("crimson", "#dc143c"), ("orchid", "#da70d6")]

/-- `colorToHex` (colorUtils.ts:66): normalize hex / `rgb()` / color names
to `"#rrggbb"`, anything else passed through unchanged. -/
def colorToHex (color : String) : String :=
  let clean := jsClean color.toList
  if clean.head? = some '#' then String.mk clean
  else if isHexLen 6 clean then String.mk ('#' :: clean)
  else if isHexLen 3 clean then String.mk ('#' :: clean)
  else
    match rgbSearch clean with
    | some (r, g, b) =>
      String.mk ('#' :: (toHexPad2 r ++ toHexPad2 g ++ toHexPad2 b))
    | none =>
      match colorNames.lookup (String.mk clean) with
      | some hex => hex
      | none => color

/-! ## Grid hover handler (main.ts:817-846) -/

/-- The tooltip / cursor state the mousemove closure mutates. -/
structure HoverState where
  currentTooltip : Option String
  lastHoveredDay : Option String
  cursor : String
  deriving DecidableEq, Repr

/-- The hover hit test
`Math.sqrt((mx - cx) ** 2 + (my - cy) ** 2) <= day.radius * 1.2`, stated
square-free: for a nonnegative right-hand side the comparison is equivalent
to comparing squares, and a negative right-hand side can never satisfy it
because the square root is nonnegative. -/
def hoverHit (mx my : ℚ) (day : ClickableDay) : Bool :=
  0 ≤ day.radius * 1.2 &&
    (mx - day.cx) ^ 2 + (my - day.cy) ^ 2 ≤ (day.radius * 1.2) ^ 2

/-- The candidate scan (main.ts:827-834): walk the spatial-index result in
order and stop at the FIRST entry within the widened radius. -/
def findHoveredDay (nearbyCells : List ClickableDay) (mx my : ℚ) :
    Option ClickableDay :=
  nearbyCells.find? (hoverHit mx my)

/-- One mousemove dispatch (tooltip DOM styling and pixel positioning
elided; the tooltip is tracked by the date it shows).  Translated from
main.ts:836-957: no hit tears down an active tooltip and resets the
cursor; the same date as last frame only repositions; a new date replaces
the tooltip and sets the pointer cursor. -/
def handleMouseMove (st : HoverState) (nearbyCells : List ClickableDay)
    (mx my : ℚ) : HoverState :=
  match findHoveredDay nearbyCells mx my with
  | none =>
    if st.currentTooltip.isSome then
      { currentTooltip := none, lastHoveredDay := none, cursor := "default" }
    else st
  | some day =>
    if some day.date = st.lastHoveredDay then st
    else
      { currentTooltip := some day.date
        lastHoveredDay := some day.date
        cursor := "pointer" }

/-! ## Grid layout loop (main.ts:522-621)

The cursor walk, the year-header bookkeeping and the day-geometry
placement.  The circle radius — `sqrt(squareSize² / π)` times a constant
multiplier — is an irrational constant that plays no part in the placement
or deduplication invariants, so the geometry records carry the placement
data (`row`, `col`, center) and the date key; the radius is kept as a
standalone definition below. -/

/-- `Theme.SQUARE_SIZE` (main.ts:1788). -/
def SQUARE_SIZE : ℚ := 7.5

/-- `Theme.GAP` (main.ts:1785). -/
def GAP : ℚ := 10

/-- `Theme.HEADER_SQUARES` (main.ts:1782). -/
def HEADER_SQUARES : ℕ := 4

/-- `Theme.CIRCLE_GAP`, `EVENT_CIRCLE_MULTIPLIER`,
`REGULAR_CIRCLE_MULTIPLIER` combined:
`sqrt(squareSize²/π) * CIRCLE_GAP * (isEvent ? 1.25 : 1.225)`
(main.ts:566-572). -/
noncomputable def dayRadius (isEvent : Bool) : ℝ :=
  Real.sqrt ((SQUARE_SIZE : ℝ) ^ 2 / Real.pi) * 0.9 *
    (if isEvent then 1.25 else 1.225)

/-- Placement record of one day dot: the cell the cursor assigned and the
derived pixel center (`cx = col*(squareSize+gap)+gap+squareSize/2`, same
for `cy` with the row). -/
structure DayGeom where
  date : String
  row : ℕ
  col : ℕ
  cx : ℚ
  cy : ℚ
  deriving DecidableEq, Repr

/-- Placement record of one year header. -/
structure YearGeom where
  year : ℕ
  row : ℕ
  col : ℕ
  deriving DecidableEq, Repr

/-- The mutable state of the layout loop. -/
structure LayoutState where
  row : ℕ
  col : ℕ
  days : List DayGeom
  years : List YearGeom
  deriving DecidableEq, Repr

/-- One iteration of the `for (const item of paintArray)` loop.  A year
marker wraps when `col > daysPerRow - headerSquares`, records its box and
advances the column by `headerSquares`; a day marker wraps when
`col >= daysPerRow`, records its center from the cursor cell and advances
the column by one. -/
def layoutStep (daysPerRow : ℤ) (st : LayoutState) (item : Paint) :
    LayoutState :=
  match item with
  | Paint.year y =>
    let wrap := (st.col : ℤ) > daysPerRow - (HEADER_SQUARES : ℤ)
    let r := if wrap then st.row + 1 else st.row
    let c := if wrap then 0 else st.col
    { row := r, col := c + HEADER_SQUARES, days := st.days,
      years := st.years ++ [{ year := y, row := r, col := c }] }
  | Paint.day rec =>
    let wrap := (st.col : ℤ) ≥ daysPerRow
    let r := if wrap then st.row + 1 else st.row
    let c := if wrap then 0 else st.col
    let x := (c : ℚ) * (SQUARE_SIZE + GAP) + GAP
    let y := (r : ℚ) * (SQUARE_SIZE + GAP) + GAP
    { row := r, col := c + 1, years := st.years,
      days := st.days ++
        [{ date := rec.date, row := r, col := c,
           cx := x + SQUARE_SIZE / 2, cy := y + SQUARE_SIZE / 2 }] }

/-- The full layout pass over a paint plan, starting at `row = 0, col = 0`
with empty accumulators. -/
def layoutPaintArray (daysPerRow : ℤ) (paintArray : List Paint) :
    LayoutState :=
  paintArray.foldl (layoutStep daysPerRow)
    { row := 0, col := 0, days := [], years := [] }

/-! ## Age calculator (src/src/utils/ageUtils.ts `calculateAge`) -/

/-- `new Date(targetDate.getFullYear(), birthDate.getMonth(),
birthDate.getDate())` — this year's birthday anniversary, with day-overflow
normalization captured by `dayNumber`. -/
def thisYearBirthday (birthDate targetDate : Date) : Date :=
  ⟨targetDate.year, birthDate.month, birthDate.day⟩

/-- The exact rational value `Math.max(0, age + decimalPart)` computed by
`calculateAge` before formatting (the `getTime()` quotients are exact in
the DST-free day model; the source's IEEE doubles approximate these
rationals). -/
def calcAgeExact (birthDate targetDate : Date) : ℚ :=
  let tyb := thisYearBirthday birthDate targetDate
  let age0 : ℤ := (targetDate.year : ℤ) - birthDate.year
  let age : ℤ := if getTime targetDate < getTime tyb then age0 - 1 else age0
  let startOfAgeYear :=
    if getTime tyb ≤ getTime targetDate then tyb
    else ⟨targetDate.year - 1, birthDate.month, birthDate.day⟩
  let endOfAgeYear :=
    if getTime tyb ≤ getTime targetDate then
      ⟨targetDate.year + 1, birthDate.month, birthDate.day⟩
    else tyb
  let totalYearMs := getTime endOfAgeYear - getTime startOfAgeYear
  let progressMs := getTime targetDate - getTime startOfAgeYear
  max 0 ((age : ℚ) + progressMs / totalYearMs)

/-- `.toFixed(1)` on a nonnegative value: round half away from zero to one
decimal and render `"<int>.<tenth>"`. -/
def toFixed1 (q : ℚ) : String :=
  let n : ℤ := ⌊q * 10 + 1 / 2⌋
  toString (n / 10) ++ "." ++ toString (n % 10)

/-- `calculateAge` (ageUtils.ts:19): the 1-decimal age string. -/
def calculateAge (birthDate targetDate : Date) : String :=
  toFixed1 (calcAgeExact birthDate targetDate)

/-! ## Auxiliary definitions used to state and prove the invariants -/

/-- The day-date keys of a paint plan, in order of emission. -/
def dayDates (l : List Paint) : List String :=
  l.filterMap (fun p => match p with
    | Paint.day rec => some rec.date
    | _ => none)

/-- How many of the `r` successors of `d` (i.e. the dates `advance k d` for
`1 ≤ k ≤ r`) fall on a January 1st. -/
def jan1Successors (d : Date) : ℕ → ℕ
  | 0 => 0
  | r + 1 =>
    (if (nextDate d).month = 0 ∧ (nextDate d).day = 1 then 1 else 0) +
      jan1Successors (nextDate d) r

/-- The shape hypotheses on a birth date that `calculateAge` relies on:
month and day components in the ranges a normalized JavaScript `Date`
produces (the day bound 31 is enough; the exact month length is not
needed). -/
def ValidBirth (b : Date) : Prop :=
  b.month ≤ 11 ∧ 1 ≤ b.day ∧ b.day ≤ 31

instance (b : Date) : Decidable (ValidBirth b) := by
  unfold ValidBirth; infer_instance

/-- A builder environment with no notes, no colors and no periods, used for
concrete evaluations. -/
def emptyEnv : BuildEnv :=
  { todayStr := "2020-01-01", dailyNoteSet := [], dayToFilePath := [],
    dayToColor := [], periods := [] }

/-! # Theorems -/

/-! ## C4 — period precedence -/

theorem find?_append_of_forall_neg {α : Type} (p : α → Bool) (pre rest : List α)
    (hpre : ∀ q ∈ pre, p q = false) :
    (pre ++ rest).find? p = rest.find? p := by
  induction pre with
  | nil => rfl
  | cons q qs ih =>
    have hq := hpre q (by simp)
    simp only [List.cons_append, List.find?_cons, hq]
    exact ih (fun x hx => hpre x (by simp [hx]))

/-- C4: when two or more periods contain a day, the day's `periodColor`
resolves to the color of the first period in declaration order whose
`[start, effective-end]` interval (with `end` empty or `"present"` read as
today's date) contains the date key — never to a later-declared period. -/
theorem period_precedence_first_match (todayStr day : String)
    (pre post : List Period) (p : Period)
    (hpre : ∀ q ∈ pre, isDateInPeriod todayStr day q = false)
    (hp : isDateInPeriod todayStr day p = true) :
    periodColorFor todayStr (pre ++ p :: post) day = some p.color := by
  unfold periodColorFor findPeriod
  rw [find?_append_of_forall_neg _ _ _ hpre]
  simp [List.find?_cons, hp]

/-- Witness for C4: the day 2007-06-01 lies in both the second and the
third period; the resolved color is the second (first matching) one. -/
theorem period_precedence_first_match_witness :
    periodColorFor "2020-01-01"
      [⟨"1990-01-01", "1995-01-01", "#111111", none⟩,
       ⟨"2000-01-01", "2010-01-01", "#aa0000", none⟩,
       ⟨"2005-01-01", "present", "#00bb00", none⟩]
      "2007-06-01" = some "#aa0000" :=
  period_precedence_first_match "2020-01-01" "2007-06-01"
    [⟨"1990-01-01", "1995-01-01", "#111111", none⟩]
    [⟨"2005-01-01", "present", "#00bb00", none⟩]
    ⟨"2000-01-01", "2010-01-01", "#aa0000", none⟩
    (by decide) (by decide)

/-! ## C7 — settings loading performs no validation -/

/-- C7 counterexample: a persisted blob whose birthday fails the
`^\d{4}-\d{2}-\d{2}$` pattern and whose maxAge is far outside 1–150
survives `loadSettings` unchanged instead of being reset to defaults. -/
theorem loadSettings_passes_through_invalid :
    (loadSettings ⟨some "not-a-date", some 9999, none, none, none⟩).birthday
        = "not-a-date" ∧
    matchesBirthdayPattern
        (loadSettings ⟨some "not-a-date", some 9999, none, none, none⟩).birthday
        = false ∧
    (loadSettings ⟨some "not-a-date", some 9999, none, none, none⟩).birthday
        ≠ DEFAULT_SETTINGS.birthday ∧
    (loadSettings ⟨some "not-a-date", some 9999, none, none, none⟩).maxAge
        = 9999 ∧
    ¬((loadSettings ⟨some "not-a-date", some 9999, none, none, none⟩).maxAge
        ≤ 150) := by
  refine ⟨rfl, by decide, by decide, rfl, by norm_num [loadSettings]⟩

/-- C7 as amended: `loadSettings` is `Object.assign({}, DEFAULT_SETTINGS,
loadData())`: a key present in the persisted blob passes through with no
validation whatsoever (even a birthday failing the pattern or a maxAge out
of range), and only an absent key receives its default. -/
theorem loadSettings_shallow_merge (data : LoadedData) :
    (∀ b, data.birthday = some b → (loadSettings data).birthday = b) ∧
    (data.birthday = none →
      (loadSettings data).birthday = DEFAULT_SETTINGS.birthday) ∧
    (∀ m, data.maxAge = some m → (loadSettings data).maxAge = m) ∧
    (data.maxAge = none →
      (loadSettings data).maxAge = DEFAULT_SETTINGS.maxAge) := by
  refine ⟨?_, ?_, ?_, ?_⟩ <;> intro h <;>
    simp_all [loadSettings]

/-- Witness for C7's amended statement at a concrete blob. -/
theorem loadSettings_shallow_merge_witness :
    (loadSettings ⟨some "garbage", none, none, none, none⟩).birthday
        = "garbage" ∧
    (loadSettings ⟨some "garbage", none, none, none, none⟩).maxAge
        = DEFAULT_SETTINGS.maxAge :=
  ⟨(loadSettings_shallow_merge _).1 "garbage" rfl,
   (loadSettings_shallow_merge _).2.2.2 rfl⟩

/-! ## C8 — hover picks the first candidate in scan order, not the nearest -/

/-- C8 counterexample: two candidates both inside the widened radius, the
second strictly nearer to the pointer; the scan returns the first. -/
theorem hover_first_not_nearest :
    findHoveredDay
      [{ date := "1990-01-01", cx := 0, cy := 0, radius := 10, color := "#fff" },
       { date := "1990-01-02", cx := 5, cy := 0, radius := 10, color := "#fff" }]
      6 0 =
      some { date := "1990-01-01", cx := 0, cy := 0, radius := 10, color := "#fff" } ∧
    hoverHit 6 0
      { date := "1990-01-02", cx := 5, cy := 0, radius := 10, color := "#fff" } = true ∧
    ((6 : ℚ) - 5) ^ 2 + (0 - 0 : ℚ) ^ 2 < ((6 : ℚ) - 0) ^ 2 + (0 - 0 : ℚ) ^ 2 := by
  refine ⟨?_, ?_, by norm_num⟩ <;>
    simp [findHoveredDay, List.find?, hoverHit] <;> norm_num

/-- C8 as amended: the hover scan returns the FIRST candidate (in
spatial-index order) whose distance is within `radius * 1.2` — not
necessarily the nearest — and when no candidate is within that distance,
an active tooltip is torn down, the last-hovered key cleared and the
cursor affordance reset. -/
theorem hover_first_match_and_teardown :
    (∀ (pre post : List ClickableDay) (day : ClickableDay) (mx my : ℚ),
      (∀ q ∈ pre, hoverHit mx my q = false) → hoverHit mx my day = true →
      findHoveredDay (pre ++ day :: post) mx my = some day) ∧
    (∀ (st : HoverState) (cells : List ClickableDay) (mx my : ℚ),
      findHoveredDay cells mx my = none →
      (handleMouseMove st cells mx my).currentTooltip = none ∧
      (st.currentTooltip.isSome →
        (handleMouseMove st cells mx my).cursor = "default" ∧
        (handleMouseMove st cells mx my).lastHoveredDay = none)) := by
  constructor
  · intro pre post day mx my hpre hday
    unfold findHoveredDay
    rw [find?_append_of_forall_neg _ _ _ hpre]
    simp [List.find?_cons, hday]
  · intro st cells mx my hnone
    unfold handleMouseMove
    rw [hnone]
    cases h : st.currentTooltip with
    | none => simp [h]
    | some v => simp [h]

/-- Witness for C8's amended statement: a concrete first-match scan and a
concrete teardown dispatch. -/
theorem hover_first_match_and_teardown_witness :
    findHoveredDay
      ([{ date := "1990-01-03", cx := 100, cy := 100, radius := 2, color := "#fff" }] ++
        { date := "1990-01-04", cx := 5, cy := 0, radius := 10, color := "#fff" } :: [])
      6 0 =
      some { date := "1990-01-04", cx := 5, cy := 0, radius := 10, color := "#fff" } ∧
    (handleMouseMove ⟨some "1990-01-05", some "1990-01-05", "pointer"⟩ [] 6 0).currentTooltip
      = none :=
  ⟨hover_first_match_and_teardown.1 _ [] _ 6 0
      (by intro q hq; simp at hq; subst hq; simp [hoverHit]; norm_num)
      (by simp [hoverHit]; norm_num),
   (hover_first_match_and_teardown.2 ⟨some "1990-01-05", some "1990-01-05", "pointer"⟩
     [] 6 0 (by simp [findHoveredDay])).1⟩

/-! ## C3 — spatial-index queries have no false negatives within one
bucket radius -/

theorem SpatialMap.mem_add_of_mem (cs : ℚ) (m : SpatialMap)
    (d e : ClickableDay) (k : ℤ × ℤ) (h : e ∈ m k) :
    e ∈ SpatialMap.add cs m d k := by
  simp only [SpatialMap.add]
  split
  · exact List.mem_append_left _ h
  · exact h

theorem SpatialMap.mem_build (cs : ℚ) (entries : List ClickableDay)
    (e : ClickableDay) (he : e ∈ entries) :
    e ∈ SpatialMap.build cs entries (⌊e.cx / cs⌋, ⌊e.cy / cs⌋) := by
  unfold SpatialMap.build
  suffices h : ∀ (m : SpatialMap),
      (e ∈ m (⌊e.cx / cs⌋, ⌊e.cy / cs⌋)) ∨ e ∈ entries →
      e ∈ entries.foldl (SpatialMap.add cs) m (⌊e.cx / cs⌋, ⌊e.cy / cs⌋) by
    exact h _ (Or.inr he)
  clear he
  induction entries with
  | nil => intro m h; simpa using h.resolve_right (by simp)
  | cons d ds ih =>
    intro m h
    simp only [List.foldl_cons]
    rcases h with h | h
    · exact ih _ (Or.inl (SpatialMap.mem_add_of_mem cs m d e _ h))
    · rcases List.mem_cons.mp h with rfl | h
      · refine ih _ (Or.inl ?_)
        unfold SpatialMap.add
        simp
      · exact ih _ (Or.inr h)

theorem SpatialMap.getNearbyCells_eq (cs : ℚ) (m : SpatialMap) (x y : ℚ) :
    SpatialMap.getNearbyCells cs m x y =
      m (⌊x / cs⌋ - 1, ⌊y / cs⌋ - 1) ++ m (⌊x / cs⌋ - 1, ⌊y / cs⌋) ++
      m (⌊x / cs⌋ - 1, ⌊y / cs⌋ + 1) ++ m (⌊x / cs⌋, ⌊y / cs⌋ - 1) ++
      m (⌊x / cs⌋, ⌊y / cs⌋) ++ m (⌊x / cs⌋, ⌊y / cs⌋ + 1) ++
      m (⌊x / cs⌋ + 1, ⌊y / cs⌋ - 1) ++ m (⌊x / cs⌋ + 1, ⌊y / cs⌋) ++
      m (⌊x / cs⌋ + 1, ⌊y / cs⌋ + 1) := by
  unfold SpatialMap.getNearbyCells
  have h2 : ∀ z : ℤ, z + 2 - 1 = z + 1 := fun z => by omega
  norm_num [List.range_succ, h2]

theorem abs_le_half_floor_diff {a b : ℚ} (h : |a - b| ≤ 1 / 2) :
    ⌊b⌋ - 1 ≤ ⌊a⌋ ∧ ⌊a⌋ ≤ ⌊b⌋ + 1 := by
  rw [abs_le] at h
  have h1 : a ≤ b + 1 := by linarith
  have h2 : b ≤ a + 1 := by linarith
  constructor
  · have hb := Int.floor_le_floor h2
    rw [Int.floor_add_one] at hb
    omega
  · have ha := Int.floor_le_floor h1
    rw [Int.floor_add_one] at ha
    omega

/-- C3: after inserting any collection of entries, every query point whose
(squared) distance to an entry's stored center is at most
`(cellSize / 2)²` finds that entry in the 3×3-neighborhood query — no
false negatives within one bucket radius. -/
theorem spatial_query_complete (entries : List ClickableDay)
    (e : ClickableDay) (x y : ℚ) (he : e ∈ entries)
    (hdist : (x - e.cx) ^ 2 + (y - e.cy) ^ 2 ≤ (GRID_CELL_SIZE / 2) ^ 2) :
    e ∈ SpatialMap.getNearbyCells GRID_CELL_SIZE
        (SpatialMap.build GRID_CELL_SIZE entries) x y := by
  have hcs : (GRID_CELL_SIZE : ℚ) = 50 := rfl
  rw [hcs] at hdist
  have habsx : |x - e.cx| ≤ 25 := by
    nlinarith [sq_abs (x - e.cx), abs_nonneg (x - e.cx), sq_nonneg (y - e.cy)]
  have habsy : |y - e.cy| ≤ 25 := by
    nlinarith [sq_abs (y - e.cy), abs_nonneg (y - e.cy), sq_nonneg (x - e.cx)]
  have hqx : |e.cx / GRID_CELL_SIZE - x / GRID_CELL_SIZE| ≤ 1 / 2 := by
    rw [div_sub_div_same, abs_div, hcs]
    rw [abs_of_pos (by norm_num : (0:ℚ) < 50), div_le_iff₀ (by norm_num : (0:ℚ) < 50)]
    rw [abs_sub_comm]
    linarith
  have hqy : |e.cy / GRID_CELL_SIZE - y / GRID_CELL_SIZE| ≤ 1 / 2 := by
    rw [div_sub_div_same, abs_div, hcs]
    rw [abs_of_pos (by norm_num : (0:ℚ) < 50), div_le_iff₀ (by norm_num : (0:ℚ) < 50)]
    rw [abs_sub_comm]
    linarith
  obtain ⟨hx1, hx2⟩ := abs_le_half_floor_diff hqx
  obtain ⟨hy1, hy2⟩ := abs_le_half_floor_diff hqy
  have hmem := SpatialMap.mem_build GRID_CELL_SIZE entries e he
  rw [SpatialMap.getNearbyCells_eq]
  simp only [List.mem_append]
  have hcx : ⌊e.cx / GRID_CELL_SIZE⌋ = ⌊x / GRID_CELL_SIZE⌋ - 1 ∨
      ⌊e.cx / GRID_CELL_SIZE⌋ = ⌊x / GRID_CELL_SIZE⌋ ∨
      ⌊e.cx / GRID_CELL_SIZE⌋ = ⌊x / GRID_CELL_SIZE⌋ + 1 := by omega
  have hcy : ⌊e.cy / GRID_CELL_SIZE⌋ = ⌊y / GRID_CELL_SIZE⌋ - 1 ∨
      ⌊e.cy / GRID_CELL_SIZE⌋ = ⌊y / GRID_CELL_SIZE⌋ ∨
      ⌊e.cy / GRID_CELL_SIZE⌋ = ⌊y / GRID_CELL_SIZE⌋ + 1 := by omega
  rcases hcx with h1 | h1 | h1 <;> rcases hcy with h2 | h2 | h2 <;>
    rw [h1, h2] at hmem <;> tauto

/-- Witness for C3: a single entry at (60, 60) is found from the query
point (45, 48), which is within half a bucket of it. -/
theorem spatial_query_complete_witness :
    ({ date := "1990-01-01", cx := 60, cy := 60, radius := 3,
       color := "#fff" } : ClickableDay) ∈
      SpatialMap.getNearbyCells GRID_CELL_SIZE
        (SpatialMap.build GRID_CELL_SIZE
          [{ date := "1990-01-01", cx := 60, cy := 60, radius := 3,
             color := "#fff" }]) 45 48 :=
  spatial_query_complete _ _ 45 48 (by simp) (by norm_num [GRID_CELL_SIZE])

/-! ## C2 — day color resolution priority -/

theorem getChannels_black : getChannels "#000000" = (some 0, some 0, some 0) := by
  decide

theorem getLuminance_black : getLuminance "#000000" = some 0 := by
  have h0 : srgbLinear ((0 : ℕ) / 255 : ℚ) = 0 := by
    unfold srgbLinear
    rw [if_pos (by norm_num)]
    norm_num
  unfold getLuminance
  rw [getChannels_black]
  dsimp only
  rw [h0]
  norm_num

theorem optLt_lum_black : optLt (getLuminance "#000000") LIGHT_COLOR_THRESHOLD := by
  rw [getLuminance_black]
  exact ⟨0, rfl, by norm_num [LIGHT_COLOR_THRESHOLD]⟩

/-- C2 counterexample: on a day that has both a period color and a note
(and no override), the renderer uses the note-derived color, not the
period color — the claimed priority `periodColor` before note-derived is
wrong.  For period color `#000000` the rendered fill is `#323232`. -/
theorem day_color_note_beats_period :
    resolveDayColor
        { date := "2001-06-01", isToday := false, hasNote := true,
          periodColor := some "#000000", color := none } = "#323232" ∧
    ("#323232" : String) ≠ "#000000" := by
  constructor
  · unfold resolveDayColor
    simp only [jsTruthyStr]
    norm_num
    unfold getNoteColor
    dsimp only
    rw [if_neg (by decide : ¬("#000000" : String) = "")]
    rw [if_pos optLt_lum_black]
    decide
  · decide

/-- C2 as amended: the fill-color priority order is overrideColor first,
then (when `hasNote` holds) the derived note color, then `periodColor`,
then the default empty-day color — note-derivation ranks ABOVE the period
color, unlike the claimed order. -/
theorem day_color_priority_order :
    (∀ (item : DayPaint) (c : String), item.color = some c → c ≠ "" →
      resolveDayColor item = c) ∧
    (∀ item : DayPaint, jsTruthyStr item.color = false → item.hasNote = true →
      resolveDayColor item = getNoteColor item.periodColor SQUARE_NOTE_COLOR) ∧
    (∀ (item : DayPaint) (p : String), jsTruthyStr item.color = false →
      item.hasNote = false → item.periodColor = some p → p ≠ "" →
      resolveDayColor item = p) ∧
    (∀ item : DayPaint, jsTruthyStr item.color = false → item.hasNote = false →
      jsTruthyStr item.periodColor = false →
      resolveDayColor item = SQUARE_DEFAULT_COLOR) := by
  refine ⟨?_, ?_, ?_, ?_⟩
  · intro item c hc hne
    unfold resolveDayColor
    rw [hc]
    simp [jsTruthyStr, hne]
  · intro item hc hn
    unfold resolveDayColor
    rw [hc, hn]
    simp
  · intro item p hc hn hp hne
    unfold resolveDayColor
    rw [hc, hn, hp]
    simp [jsTruthyStr, hne]
  · intro item hc hn hp
    unfold resolveDayColor
    rw [hc, hn, hp]
    simp

/-- Witness for C2's amended statement: the claim's own concrete example —
a day with period color `#112233` and note front-matter color `#aabbcc`
renders `#aabbcc`. -/
theorem day_color_priority_order_witness :
    resolveDayColor
        { date := "2001-06-02", isToday := false, hasNote := true,
          periodColor := some "#112233", color := some "#aabbcc" } = "#aabbcc" :=
  day_color_priority_order.1 _ "#aabbcc" rfl (by decide)

/-! ## C1 — paint-plan day and year counts -/

theorem daysInMonth_pos (y m : ℕ) : 1 ≤ daysInMonth y m := by
  unfold daysInMonth
  split
  · split <;> norm_num
  · split <;> norm_num

theorem valid_nextDate {d : Date} (h : ValidDate d) : ValidDate (nextDate d) := by
  obtain ⟨hm, hd1, hd2⟩ := h
  unfold nextDate
  split
  next hlt => exact ⟨hm, by dsimp only; omega, by dsimp only; omega⟩
  next hge =>
    split
    next hlt11 =>
      exact ⟨by dsimp only; omega, by dsimp only; omega,
        by dsimp only; exact daysInMonth_pos _ _⟩
    next hge11 =>
      exact ⟨by dsimp only; omega, by dsimp only; omega,
        by dsimp only; exact daysInMonth_pos _ _⟩

theorem valid_advance {d : Date} (h : ValidDate d) (r : ℕ) :
    ValidDate (advance r d) := by
  induction r generalizing d with
  | zero => exact h
  | succ r ih =>
    rw [advance, Function.iterate_succ_apply]
    exact ih (valid_nextDate h)

/-- Stepping a valid date bumps the year exactly when the step lands on a
January 1st. -/
theorem year_nextDate {d : Date} (h : ValidDate d) :
    (nextDate d).year =
      d.year +
        (if (nextDate d).month = 0 ∧ (nextDate d).day = 1 then 1 else 0) := by
  obtain ⟨hm, hd1, hd2⟩ := h
  unfold nextDate
  split
  next hlt =>
    rw [if_neg (by dsimp only; omega)]
    dsimp only
    omega
  next hge =>
    split
    next hlt11 =>
      rw [if_neg (by dsimp only; omega)]
      dsimp only
      omega
    next hge11 =>
      rw [if_pos (by exact ⟨rfl, rfl⟩)]

/-- The year reached after `r` steps is the starting year plus the number
of January 1sts landed on. -/
theorem year_advance {d : Date} (h : ValidDate d) (r : ℕ) :
    (advance r d).year = d.year + jan1Successors d r := by
  induction r generalizing d with
  | zero => simp [advance, jan1Successors]
  | succ r ih =>
    have h1 : advance (r + 1) d = advance r (nextDate d) := by
      unfold advance
      exact Function.iterate_succ_apply nextDate r d
    have h2 : jan1Successors d (r + 1) =
        (if (nextDate d).month = 0 ∧ (nextDate d).day = 1 then 1 else 0) +
          jan1Successors (nextDate d) r := rfl
    rw [h1, ih (valid_nextDate h), h2, year_nextDate h]
    omega

/-- Counts of the tail of the builder loop (every iteration with index
`≥ 1`): one year marker for every January 1st among the visited dates, one
day marker for every other date. -/
theorem buildPaintFrom_tail_counts (env : BuildEnv) (r : ℕ) :
    ∀ (d : Date) (i : ℕ),
      countYearMarkers (buildPaintFrom env (nextDate d) (i + 1) r) =
        jan1Successors d r ∧
      countDayMarkers (buildPaintFrom env (nextDate d) (i + 1) r) +
        jan1Successors d r = r := by
  induction r with
  | zero => intro d i; simp [buildPaintFrom, jan1Successors, countYearMarkers,
      countDayMarkers]
  | succ r ih =>
    intro d i
    have hstep :
        buildPaintFrom env (nextDate d) (i + 1) (r + 1) =
          paintEntriesFor env (nextDate d) (i + 1) ++
            buildPaintFrom env (nextDate (nextDate d)) (i + 1 + 1) r := rfl
    rw [hstep]
    unfold countYearMarkers countDayMarkers at *
    rw [List.countP_append, List.countP_append]
    obtain ⟨ihy, ihd⟩ := ih (nextDate d) (i + 1)
    unfold jan1Successors
    by_cases hj : (nextDate d).month = 0 ∧ (nextDate d).day = 1
    · have hentries : paintEntriesFor env (nextDate d) (i + 1) =
          [Paint.year (nextDate d).year] := by
        unfold paintEntriesFor
        rw [if_pos (Or.inr hj), if_neg (by simpa using ⟨hj.1, hj.2⟩)]
        simp
      rw [hentries, if_pos hj]
      simp only [List.countP_cons, List.countP_nil]
      norm_num
      exact ⟨ihy, by omega⟩
    · have hentries : ∃ rec, paintEntriesFor env (nextDate d) (i + 1) =
          [Paint.day rec] := by
        unfold paintEntriesFor
        rw [if_neg (by simpa using hj), if_pos (by simpa using hj)]
        exact ⟨_, rfl⟩
      obtain ⟨rec, hrec⟩ := hentries
      rw [hrec, if_neg hj]
      simp only [List.countP_cons, List.countP_nil]
      norm_num
      exact ⟨ihy, by omega⟩

/-- C1 as amended: over a range of `D = n + 1` calendar days the builder
emits `D - (Y - 1)` day markers and `Y` year markers, where
`Y = end.year - start.year + 1` is the number of distinct calendar years
touched: every January 1st after the first iteration gets a year marker
but NO day marker, so exactly `Y - 1` calendar days are skipped; a range
starting on January 1st emits both a year marker and a day marker for its
first day. -/
theorem paint_plan_counts (env : BuildEnv) (start : Date) (n : ℕ)
    (h : ValidDate start) :
    countYearMarkers (buildPaintArray env start n) =
      ((advance n start).year - start.year) + 1 ∧
    countDayMarkers (buildPaintArray env start n) +
      ((advance n start).year - start.year) = n + 1 := by
  have hyear := year_advance h n
  have hsub : (advance n start).year - start.year = jan1Successors start n := by
    omega
  rw [hsub]
  have hstep : buildPaintArray env start n =
      paintEntriesFor env start 0 ++ buildPaintFrom env (nextDate start) 1 n :=
    rfl
  rw [hstep]
  have hentries : ∃ rec, paintEntriesFor env start 0 =
      [Paint.year start.year, Paint.day rec] := by
    unfold paintEntriesFor
    rw [if_pos (Or.inl rfl), if_pos (by simp)]
    exact ⟨_, rfl⟩
  obtain ⟨rec, hrec⟩ := hentries
  rw [hrec]
  obtain ⟨hy, hd⟩ := buildPaintFrom_tail_counts env n start 0
  unfold countYearMarkers countDayMarkers at *
  rw [List.countP_append, List.countP_append]
  simp only [List.countP_cons, List.countP_nil]
  norm_num at hy hd ⊢
  refine ⟨?_, ?_⟩ <;> omega

/-- C1 counterexample: the two-day range 1990-12-31 .. 1991-01-01 produces
only ONE day marker (January 1st 1991 gets a year marker and its day
marker is skipped), not two. -/
theorem paint_plan_day_count_mismatch :
    countDayMarkers (buildPaintArray emptyEnv ⟨1990, 11, 31⟩ 1) ≠ 1 + 1 := by
  decide

/-- Witness for C1's amended statement on the same two-day range: two year
markers (1990 and 1991) and one day marker. -/
theorem paint_plan_counts_witness :
    countYearMarkers (buildPaintArray emptyEnv ⟨1990, 11, 31⟩ 1) = 2 ∧
    countDayMarkers (buildPaintArray emptyEnv ⟨1990, 11, 31⟩ 1) + 1 = 2 := by
  obtain ⟨h1, h2⟩ := paint_plan_counts emptyEnv ⟨1990, 11, 31⟩ 1 (by decide)
  have hadv : (advance 1 (⟨1990, 11, 31⟩ : Date)).year = 1991 := by decide
  rw [hadv] at h1 h2
  norm_num at h1 h2
  exact ⟨h1, by omega⟩

/-! ## C9 — every day marker occupies a distinct cell with a distinct
center and a unique date key -/

/-- The layout cursor invariant: recorded day cells are strictly
lexicographically increasing, all lie strictly before the cursor, and each
record's pixel center is the affine image of its cell. -/
theorem layout_foldl_inv (dpr : ℤ) :
    ∀ (items : List Paint) (st : LayoutState),
      st.days.Pairwise
        (fun a b => a.row < b.row ∨ (a.row = b.row ∧ a.col < b.col)) →
      (∀ g ∈ st.days, g.row < st.row ∨ (g.row = st.row ∧ g.col < st.col)) →
      (∀ g ∈ st.days,
        g.cx = (g.col : ℚ) * (SQUARE_SIZE + GAP) + GAP + SQUARE_SIZE / 2 ∧
        g.cy = (g.row : ℚ) * (SQUARE_SIZE + GAP) + GAP + SQUARE_SIZE / 2) →
      (items.foldl (layoutStep dpr) st).days.Pairwise
        (fun a b => a.row < b.row ∨ (a.row = b.row ∧ a.col < b.col)) ∧
      (∀ g ∈ (items.foldl (layoutStep dpr) st).days,
        g.cx = (g.col : ℚ) * (SQUARE_SIZE + GAP) + GAP + SQUARE_SIZE / 2 ∧
        g.cy = (g.row : ℚ) * (SQUARE_SIZE + GAP) + GAP + SQUARE_SIZE / 2) := by
  intro items
  induction items with
  | nil => intro st h1 h2 h3; exact ⟨h1, h3⟩
  | cons item rest ih =>
    intro st h1 h2 h3
    rw [List.foldl_cons]
    cases item with
    | year y =>
      refine ih _ h1 ?_ h3
      intro g hg
      have hold := h2 g hg
      unfold layoutStep
      dsimp only
      by_cases hw : (st.col : ℤ) > dpr - (HEADER_SQUARES : ℤ)
      · rw [if_pos hw, if_pos hw]
        omega
      · rw [if_neg hw, if_neg hw]
        omega
    | day rec =>
      apply ih
      · unfold layoutStep
        dsimp only
        rw [List.pairwise_append]
        refine ⟨h1, by simp, ?_⟩
        intro a ha b hb
        simp only [List.mem_singleton] at hb
        subst hb
        have hold := h2 a ha
        by_cases hw : (st.col : ℤ) ≥ dpr
        · rw [if_pos hw, if_pos hw]
          try dsimp only
          omega
        · rw [if_neg hw, if_neg hw]
          try dsimp only
          omega
      · unfold layoutStep
        dsimp only
        intro g hg
        rw [List.mem_append] at hg
        by_cases hw : (st.col : ℤ) ≥ dpr
        · rw [if_pos hw, if_pos hw] at hg ⊢
          try dsimp only at hg ⊢
          rcases hg with hg | hg
          · have hold := h2 g hg
            try dsimp only
            omega
          · simp only [List.mem_singleton] at hg
            subst hg
            try dsimp only
            omega
        · rw [if_neg hw, if_neg hw] at hg ⊢
          try dsimp only at hg ⊢
          rcases hg with hg | hg
          · have hold := h2 g hg
            try dsimp only
            omega
          · simp only [List.mem_singleton] at hg
            subst hg
            try dsimp only
            omega
      · unfold layoutStep
        dsimp only
        intro g hg
        rw [List.mem_append] at hg
        rcases hg with hg | hg
        · exact h3 g hg
        · simp only [List.mem_singleton] at hg
          subst hg
          exact ⟨rfl, rfl⟩

/-- The day records' date keys are exactly the paint plan's day dates, in
order. -/
theorem layout_days_dates (dpr : ℤ) :
    ∀ (items : List Paint) (st : LayoutState),
      (items.foldl (layoutStep dpr) st).days.map DayGeom.date =
        st.days.map DayGeom.date ++ dayDates items := by
  intro items
  induction items with
  | nil => intro st; simp [dayDates]
  | cons item rest ih =>
    intro st
    rw [List.foldl_cons, ih]
    cases item with
    | year y =>
      have h1 : (layoutStep dpr st (Paint.year y)).days = st.days := rfl
      rw [h1]
      simp [dayDates]
    | day rec =>
      have h1 : ∃ g : DayGeom, g.date = rec.date ∧
          (layoutStep dpr st (Paint.day rec)).days = st.days ++ [g] := by
        unfold layoutStep
        dsimp only
        exact ⟨_, rfl, rfl⟩
      obtain ⟨g, hgd, hds⟩ := h1
      rw [hds]
      simp [dayDates, hgd]

/-- C9: within one render pass, every day marker is placed at a pairwise
distinct (row, column) cell, all day geometry entries have pairwise
distinct center coordinates, and (given the paint plan's day dates are
distinct, as the builder guarantees) the date→geometry lookup maps each
date key to exactly one entry. -/
theorem layout_days_distinct (dpr : ℤ) (pa : List Paint)
    (hnd : (dayDates pa).Nodup) :
    (layoutPaintArray dpr pa).days.Pairwise
      (fun a b => (a.row, a.col) ≠ (b.row, b.col)) ∧
    (layoutPaintArray dpr pa).days.Pairwise
      (fun a b => (a.cx, a.cy) ≠ (b.cx, b.cy)) ∧
    ((layoutPaintArray dpr pa).days.map DayGeom.date).Nodup := by
  obtain ⟨hpw, hcoh⟩ := layout_foldl_inv dpr pa
    { row := 0, col := 0, days := [], years := [] }
    (by simp) (by simp) (by simp)
  have hK : (SQUARE_SIZE + GAP : ℚ) ≠ 0 := by norm_num [SQUARE_SIZE, GAP]
  refine ⟨?_, ?_, ?_⟩
  · exact hpw.imp (by intro a b hab heq; rw [Prod.mk.injEq] at heq; omega)
  · refine List.Pairwise.imp_of_mem ?_ hpw
    intro a b ha hb hab heq
    rw [Prod.mk.injEq] at heq
    obtain ⟨hax, hay⟩ := hcoh a ha
    obtain ⟨hbx, hby⟩ := hcoh b hb
    have hrow : (a.row : ℚ) = b.row := by
      have := heq.2
      rw [hay, hby] at this
      have h2 : (a.row : ℚ) * (SQUARE_SIZE + GAP) =
          (b.row : ℚ) * (SQUARE_SIZE + GAP) := by linarith
      exact mul_right_cancel₀ hK h2
    have hcol : (a.col : ℚ) = b.col := by
      have := heq.1
      rw [hax, hbx] at this
      have h2 : (a.col : ℚ) * (SQUARE_SIZE + GAP) =
          (b.col : ℚ) * (SQUARE_SIZE + GAP) := by linarith
      exact mul_right_cancel₀ hK h2
    have hr : a.row = b.row := by exact_mod_cast hrow
    have hc : a.col = b.col := by exact_mod_cast hcol
    omega
  · have hd := layout_days_dates dpr pa
      { row := 0, col := 0, days := [], years := [] }
    unfold layoutPaintArray
    rw [hd]
    simpa using hnd

/-- Witness for C9 on a concrete three-instruction paint plan. -/
theorem layout_days_distinct_witness :
    (layoutPaintArray 10 (buildPaintArray emptyEnv ⟨1990, 11, 30⟩ 2)).days.Pairwise
      (fun a b => (a.row, a.col) ≠ (b.row, b.col)) ∧
    (layoutPaintArray 10 (buildPaintArray emptyEnv ⟨1990, 11, 30⟩ 2)).days.Pairwise
      (fun a b => (a.cx, a.cy) ≠ (b.cx, b.cy)) ∧
    ((layoutPaintArray 10 (buildPaintArray emptyEnv ⟨1990, 11, 30⟩ 2)).days.map
      DayGeom.date).Nodup :=
  layout_days_distinct 10 _ (by decide)

/-! ## C10 — `colorToHex` is idempotent

Every branch of `colorToHex` returns either the input unchanged or a
string that starts with `'#'` and is a fixed point of
`trim().toLowerCase()`; a second application therefore takes the
`startsWith("#")` branch and returns its argument. -/

theorem char_toNat_inj {a b : Char} (h : a.toNat = b.toNat) : a = b :=
  Char.eq_of_val_eq (UInt32.eq_of_toBitVec_eq (BitVec.toNat_injective h))

theorem toNat_ofNat_valid {n : ℕ} (h : n < 55296) : (Char.ofNat n).toNat = n := by
  unfold Char.ofNat
  rw [dif_pos (Or.inl h)]
  rfl

theorem jsLowerChar_toNat_of_upper {c : Char} (h : 'A' ≤ c ∧ c ≤ 'Z') :
    (jsLowerChar c).toNat = c.toNat + 32 := by
  unfold jsLowerChar
  rw [if_pos h]
  have h90 : c.toNat ≤ 90 := h.2
  exact toNat_ofNat_valid (by omega)

theorem jsLowerChar_eq_of_not_upper {c : Char} (h : ¬('A' ≤ c ∧ c ≤ 'Z')) :
    jsLowerChar c = c := by
  unfold jsLowerChar
  rw [if_neg h]

theorem jsLowerChar_idem (c : Char) :
    jsLowerChar (jsLowerChar c) = jsLowerChar c := by
  by_cases h : 'A' ≤ c ∧ c ≤ 'Z'
  · refine jsLowerChar_eq_of_not_upper ?_
    have ht := jsLowerChar_toNat_of_upper h
    have h65 : 65 ≤ c.toNat := h.1
    have h90 : c.toNat ≤ 90 := h.2
    rintro ⟨ha, hz⟩
    have ha' : 65 ≤ (jsLowerChar c).toNat := ha
    have hz' : (jsLowerChar c).toNat ≤ 90 := hz
    omega
  · rw [jsLowerChar_eq_of_not_upper h, jsLowerChar_eq_of_not_upper h]

theorem jsIsWS_iff {c : Char} : jsIsWS c = true ↔
    (c.toNat = 32 ∨ c.toNat = 9 ∨ c.toNat = 10 ∨ c.toNat = 13) := by
  unfold jsIsWS
  simp only [Bool.or_eq_true, decide_eq_true_eq]
  constructor
  · rintro (((rfl | rfl) | rfl) | rfl)
    · exact Or.inl (by decide)
    · exact Or.inr (Or.inl (by decide))
    · exact Or.inr (Or.inr (Or.inl (by decide)))
    · exact Or.inr (Or.inr (Or.inr (by decide)))
  · rintro (h | h | h | h)
    · exact Or.inl (Or.inl (Or.inl
        (char_toNat_inj (show c.toNat = (' ' : Char).toNat from h))))
    · exact Or.inl (Or.inl (Or.inr
        (char_toNat_inj (show c.toNat = ('\t' : Char).toNat from h))))
    · exact Or.inl (Or.inr
        (char_toNat_inj (show c.toNat = ('\n' : Char).toNat from h)))
    · exact Or.inr
        (char_toNat_inj (show c.toNat = ('\r' : Char).toNat from h))

theorem jsIsWS_jsLowerChar (c : Char) : jsIsWS (jsLowerChar c) = jsIsWS c := by
  by_cases h : 'A' ≤ c ∧ c ≤ 'Z'
  · have ht := jsLowerChar_toNat_of_upper h
    have h65 : 65 ≤ c.toNat := h.1
    have h90 : c.toNat ≤ 90 := h.2
    have h1 : jsIsWS (jsLowerChar c) = false := by
      rw [← Bool.not_eq_true]
      rw [jsIsWS_iff]
      omega
    have h2 : jsIsWS c = false := by
      rw [← Bool.not_eq_true]
      rw [jsIsWS_iff]
      omega
    rw [h1, h2]
  · rw [jsLowerChar_eq_of_not_upper h]

theorem jsLowerList_idem (l : List Char) :
    jsLowerList (jsLowerList l) = jsLowerList l := by
  unfold jsLowerList
  rw [List.map_map]
  exact List.map_congr_left (fun c _ => jsLowerChar_idem c)

theorem dropWhile_jsLowerList (l : List Char) :
    (jsLowerList l).dropWhile jsIsWS = jsLowerList (l.dropWhile jsIsWS) := by
  induction l with
  | nil => rfl
  | cons c t ih =>
    unfold jsLowerList at *
    rw [List.map_cons, List.dropWhile_cons, List.dropWhile_cons,
      jsIsWS_jsLowerChar]
    by_cases h : jsIsWS c = true
    · rw [if_pos h, if_pos h]
      exact ih
    · rw [if_neg h, if_neg h, List.map_cons]

theorem jsLowerList_reverse (l : List Char) :
    (jsLowerList l).reverse = jsLowerList l.reverse := by
  unfold jsLowerList
  exact (List.map_reverse _ _).symm

theorem jsTrimList_jsLowerList (l : List Char) :
    jsTrimList (jsLowerList l) = jsLowerList (jsTrimList l) := by
  unfold jsTrimList
  rw [dropWhile_jsLowerList, jsLowerList_reverse, dropWhile_jsLowerList,
    jsLowerList_reverse]

theorem dropWhile_dropWhile (p : Char → Bool) (l : List Char) :
    (l.dropWhile p).dropWhile p = l.dropWhile p := by
  induction l with
  | nil => rfl
  | cons c t ih =>
    rw [List.dropWhile_cons]
    by_cases h : p c = true
    · rw [if_pos h]
      exact ih
    · rw [if_neg h, List.dropWhile_cons, if_neg h]

theorem dropWhile_append_singleton (p : Char → Bool) (l : List Char) (c : Char) :
    (l ++ [c]).dropWhile p =
      if l.dropWhile p = [] then (if p c = true then [] else [c])
      else l.dropWhile p ++ [c] := by
  induction l with
  | nil => simp [List.dropWhile_cons, List.dropWhile_nil]
  | cons a t ih =>
    rw [List.cons_append, List.dropWhile_cons, List.dropWhile_cons]
    by_cases h : p a = true
    · rw [if_pos h, if_pos h, ih]
    · rw [if_neg h, if_neg h]
      rw [if_neg (by simp)]
      rfl

theorem dropWhile_head_false (p : Char → Bool) (l : List Char) (c : Char)
    (t : List Char) (h : l.dropWhile p = c :: t) : p c = false := by
  induction l with
  | nil => simp at h
  | cons a s ih =>
    rw [List.dropWhile_cons] at h
    by_cases ha : p a = true
    · rw [if_pos ha] at h
      exact ih h
    · rw [if_neg ha] at h
      cases h
      exact Bool.not_eq_true _ |>.mp ha

theorem jsTrimList_idem (l : List Char) :
    jsTrimList (jsTrimList l) = jsTrimList l := by
  unfold jsTrimList
  set B := l.dropWhile jsIsWS with hB
  have hBB : B.dropWhile jsIsWS = B := dropWhile_dropWhile jsIsWS l
  set C := (B.reverse.dropWhile jsIsWS).reverse with hC
  have hCrev : C.reverse = B.reverse.dropWhile jsIsWS := by
    rw [hC, List.reverse_reverse]
  have hCC : C.dropWhile jsIsWS = C := by
    cases hBcase : B with
    | nil => simp [hC, hBcase]
    | cons b bt =>
      have hpb : jsIsWS b = false := by
        refine dropWhile_head_false jsIsWS l b bt ?_
        rw [← hB, hBcase]
      have hsplit := dropWhile_append_singleton jsIsWS bt.reverse b
      have hBrev : B.reverse = bt.reverse ++ [b] := by
        rw [hBcase]
        simp
      rw [hC, hBrev, hsplit]
      by_cases hempty : bt.reverse.dropWhile jsIsWS = []
      · rw [if_pos hempty, if_neg (by rw [hpb]; exact Bool.false_ne_true)]
        simp [List.dropWhile_cons, hpb]
      · rw [if_neg hempty]
        rw [List.reverse_append]
        simp only [List.reverse_singleton, List.singleton_append]
        rw [List.dropWhile_cons, if_neg (by rw [hpb]; exact Bool.false_ne_true)]
  rw [hCC, hCrev, dropWhile_dropWhile]

theorem jsClean_idem (l : List Char) : jsClean (jsClean l) = jsClean l := by
  unfold jsClean
  rw [jsTrimList_jsLowerList, jsLowerList_idem, jsTrimList_idem]

theorem mk_toList (s : String) : String.mk s.toList = s := rfl

theorem toList_mk (l : List Char) : (String.mk l).toList = l := rfl

theorem dropWhile_eq_self_of_head (p : Char → Bool) (x : List Char)
    (h : ∀ c t, x = c :: t → p c = false) : x.dropWhile p = x := by
  cases x with
  | nil => rfl
  | cons c t =>
    rw [List.dropWhile_cons, if_neg ?_]
    rw [h c t rfl]
    exact Bool.false_ne_true

theorem jsClean_fixed_of_forall (x : List Char)
    (h : ∀ c ∈ x, jsLowerChar c = c ∧ jsIsWS c = false) : jsClean x = x := by
  have h1 : x.dropWhile jsIsWS = x :=
    dropWhile_eq_self_of_head _ _ (fun c t hct =>
      (h c (by rw [hct]; exact List.mem_cons_self c t)).2)
  have h2 : x.reverse.dropWhile jsIsWS = x.reverse :=
    dropWhile_eq_self_of_head _ _ (fun c t hct =>
      (h c (List.mem_reverse.mp (by rw [hct]; exact List.mem_cons_self c t))).2)
  have h3 : jsTrimList x = x := by
    unfold jsTrimList
    rw [h1, h2, List.reverse_reverse]
  have h4 : jsLowerList x = x := by
    unfold jsLowerList
    exact (List.map_congr_left (fun c hc => (h c hc).1)).trans (List.map_id x)
  unfold jsClean
  rw [h3, h4]

theorem mem_jsClean_lower_fixed {c : Char} {l : List Char}
    (hc : c ∈ jsClean l) : jsLowerChar c = c := by
  unfold jsClean jsLowerList at hc
  obtain ⟨a, _, rfl⟩ := List.mem_map.mp hc
  exact jsLowerChar_idem a

theorem isHexDigitCI_not_ws {c : Char} (h : isHexDigitCI c = true) :
    jsIsWS c = false := by
  unfold isHexDigitCI at h
  simp only [Bool.or_eq_true, Bool.and_eq_true, decide_eq_true_eq] at h
  rw [← Bool.not_eq_true, jsIsWS_iff]
  rcases h with (⟨h1, h2⟩ | ⟨h1, h2⟩) | ⟨h1, h2⟩
  · have ha : 48 ≤ c.toNat := h1
    have hb : c.toNat ≤ 57 := h2
    omega
  · have ha : 97 ≤ c.toNat := h1
    have hb : c.toNat ≤ 102 := h2
    omega
  · have ha : 65 ≤ c.toNat := h1
    have hb : c.toNat ≤ 70 := h2
    omega

theorem toHexChar_range {n : ℕ} (h : n < 16) :
    (48 ≤ (toHexChar n).toNat ∧ (toHexChar n).toNat ≤ 57) ∨
      (97 ≤ (toHexChar n).toNat ∧ (toHexChar n).toNat ≤ 102) := by
  unfold toHexChar
  by_cases h10 : n < 10
  · rw [if_pos h10]
    left
    have : ('0'.toNat + n) < 55296 := by
      have : '0'.toNat = 48 := rfl
      omega
    rw [toNat_ofNat_valid this]
    have h48 : '0'.toNat = 48 := rfl
    omega
  · rw [if_neg h10]
    right
    have h97 : 'a'.toNat = 97 := rfl
    have : ('a'.toNat + n - 10) < 55296 := by omega
    rw [toNat_ofNat_valid this]
    omega

theorem toHexDigitsAux_range :
    ∀ (fuel n : ℕ), ∀ c ∈ toHexDigitsAux fuel n,
      (48 ≤ c.toNat ∧ c.toNat ≤ 57) ∨ (97 ≤ c.toNat ∧ c.toNat ≤ 102) := by
  intro fuel
  induction fuel with
  | zero => intro n c hc; simp [toHexDigitsAux] at hc
  | succ fuel ih =>
    intro n c hc
    unfold toHexDigitsAux at hc
    by_cases h16 : n < 16
    · rw [if_pos h16] at hc
      simp only [List.mem_singleton] at hc
      subst hc
      exact toHexChar_range h16
    · rw [if_neg h16] at hc
      rw [List.mem_append] at hc
      rcases hc with hc | hc
      · exact ih (n / 16) c hc
      · simp only [List.mem_singleton] at hc
        subst hc
        exact toHexChar_range (Nat.mod_lt n (by norm_num))

theorem toHexPad2_range (n : ℕ) :
    ∀ c ∈ toHexPad2 n,
      (48 ≤ c.toNat ∧ c.toNat ≤ 57) ∨ (97 ≤ c.toNat ∧ c.toNat ≤ 102) := by
  intro c hc
  unfold toHexPad2 toHexDigits at hc
  by_cases hl : (toHexDigitsAux (n + 1) n).length < 2
  · rw [if_pos hl] at hc
    rcases List.mem_cons.mp hc with rfl | hc
    · left
      exact ⟨by decide, by decide⟩
    · exact toHexDigitsAux_range (n + 1) n c hc
  · rw [if_neg hl] at hc
    exact toHexDigitsAux_range (n + 1) n c hc

theorem hexchar_fixed_not_ws {c : Char}
    (h : (48 ≤ c.toNat ∧ c.toNat ≤ 57) ∨ (97 ≤ c.toNat ∧ c.toNat ≤ 102)) :
    jsLowerChar c = c ∧ jsIsWS c = false := by
  constructor
  · refine jsLowerChar_eq_of_not_upper ?_
    rintro ⟨h1, h2⟩
    have ha : 65 ≤ c.toNat := h1
    have hb : c.toNat ≤ 90 := h2
    omega
  · rw [← Bool.not_eq_true, jsIsWS_iff]
    omega

theorem hash_fixed_not_ws : jsLowerChar '#' = '#' ∧ jsIsWS '#' = false := by
  constructor
  · refine jsLowerChar_eq_of_not_upper ?_
    rintro ⟨h1, h2⟩
    have ha : 65 ≤ ('#' : Char).toNat := h1
    revert ha
    decide
  · decide

theorem lookup_mem {α β : Type} [BEq α] [LawfulBEq α] :
    ∀ (l : List (α × β)) (k : α) (v : β), l.lookup k = some v → (k, v) ∈ l := by
  intro l
  induction l with
  | nil => intro k v h; simp [List.lookup] at h
  | cons p t ih =>
    intro k v h
    rw [List.lookup] at h
    cases hk : k == p.1 with
    | true =>
      rw [hk] at h
      dsimp only at h
      cases h
      have hkp : k = p.1 := eq_of_beq hk
      subst hkp
      exact List.mem_cons_self _ _
    | false =>
      rw [hk] at h
      dsimp only at h
      exact List.mem_cons_of_mem _ (ih k v h)

theorem colorNames_ok :
    ∀ pr ∈ colorNames,
      pr.2.toList.head? = some '#' ∧ jsClean pr.2.toList = pr.2.toList := by
  decide

/-- Every `colorToHex` output is either the input itself (the pass-through
branch) or a `'#'`-headed string that `trim().toLowerCase()` leaves
unchanged. -/
theorem colorToHex_output (s : String) :
    colorToHex s = s ∨
      ((colorToHex s).toList.head? = some '#' ∧
        jsClean (colorToHex s).toList = (colorToHex s).toList) := by
  unfold colorToHex
  dsimp only
  by_cases hh : (jsClean s.toList).head? = some '#'
  · rw [if_pos hh]
    right
    rw [toList_mk]
    exact ⟨hh, jsClean_idem _⟩
  · rw [if_neg hh]
    by_cases h6 : isHexLen 6 (jsClean s.toList) = true
    · rw [if_pos h6]
      right
      rw [toList_mk]
      refine ⟨rfl, jsClean_fixed_of_forall _ ?_⟩
      intro c hc
      rcases List.mem_cons.mp hc with rfl | hc
      · exact hash_fixed_not_ws
      · unfold isHexLen at h6
        have hall := (Bool.and_eq_true _ _ |>.mp h6).2
        rw [List.all_eq_true] at hall
        exact ⟨mem_jsClean_lower_fixed hc, isHexDigitCI_not_ws (hall c hc)⟩
    · rw [if_neg h6]
      by_cases h3 : isHexLen 3 (jsClean s.toList) = true
      · rw [if_pos h3]
        right
        rw [toList_mk]
        refine ⟨rfl, jsClean_fixed_of_forall _ ?_⟩
        intro c hc
        rcases List.mem_cons.mp hc with rfl | hc
        · exact hash_fixed_not_ws
        · unfold isHexLen at h3
          have hall := (Bool.and_eq_true _ _ |>.mp h3).2
          rw [List.all_eq_true] at hall
          exact ⟨mem_jsClean_lower_fixed hc, isHexDigitCI_not_ws (hall c hc)⟩
      · rw [if_neg h3]
        cases hr : rgbSearch (jsClean s.toList) with
        | some triple =>
          obtain ⟨r, g, b⟩ := triple
          right
          rw [toList_mk]
          refine ⟨rfl, jsClean_fixed_of_forall _ ?_⟩
          intro c hc
          rcases List.mem_cons.mp hc with rfl | hc
          · exact hash_fixed_not_ws
          · rw [List.mem_append] at hc
            rcases hc with hc | hc
            · rw [List.mem_append] at hc
              rcases hc with hc | hc
              · exact hexchar_fixed_not_ws (toHexPad2_range r c hc)
              · exact hexchar_fixed_not_ws (toHexPad2_range g c hc)
            · exact hexchar_fixed_not_ws (toHexPad2_range b c hc)
        | none =>
          cases hl : colorNames.lookup (String.mk (jsClean s.toList)) with
          | some hex =>
            right
            have hmem := lookup_mem colorNames _ hex hl
            have hok := colorNames_ok _ hmem
            exact hok
          | none => left; rfl

/-- C10: the pure-parsing `colorToHex` is idempotent on every input
string: hex with or without `#`, `rgb()/rgba()` syntax, the color-name
table and unrecognized pass-through tokens alike. -/
theorem colorToHex_idempotent (s : String) :
    colorToHex (colorToHex s) = colorToHex s := by
  rcases colorToHex_output s with h | ⟨hhead, hfix⟩
  · rw [h]
    exact h
  · set u := colorToHex s with hu
    unfold colorToHex
    dsimp only
    rw [hfix, if_pos hhead]
    exact mk_toList u

/-! ## C6 — note-color derivation and luminance

First the exact parse/render roundtrip for `"#rrggbb"` channel bytes. -/

theorem hexDigitVal_getD_le (c : Char) : (hexDigitVal c).getD 0 ≤ 15 := by
  unfold hexDigitVal
  split
  next h =>
    have h48 : ('0' : Char).toNat = 48 := rfl
    have hb : c.toNat ≤ 57 := h.2
    simp only [Option.getD_some]
    omega
  next h =>
    split
    next h2 =>
      have h97 : ('a' : Char).toNat = 97 := rfl
      have hb : c.toNat ≤ 102 := h2.2
      simp only [Option.getD_some]
      omega
    next h2 =>
      split
      next h3 =>
        have h65 : ('A' : Char).toNat = 65 := rfl
        have hb : c.toNat ≤ 70 := h3.2
        simp only [Option.getD_some]
        omega
      next h3 => simp

theorem takeWhile_length_le (p : Char → Bool) (l : List Char) :
    (l.takeWhile p).length ≤ l.length := by
  induction l with
  | nil => simp
  | cons c t ih =>
    rw [List.takeWhile_cons]
    by_cases h : p c = true
    · rw [if_pos h]
      simp only [List.length_cons]
      omega
    · rw [if_neg h]
      simp

theorem jsParseIntHex_le_255 {l : List Char} (h : l.length ≤ 2) {v : ℕ}
    (hv : jsParseIntHex l = some v) : v ≤ 255 := by
  unfold jsParseIntHex at hv
  set digits := l.takeWhile (fun c => (hexDigitVal c).isSome) with hdig
  have hlen : digits.length ≤ 2 :=
    le_trans (takeWhile_length_le _ _) h
  by_cases hnil : digits = []
  · rw [if_pos hnil] at hv
    exact absurd hv (by simp)
  · rw [if_neg hnil] at hv
    have hv' : digits.foldl (fun acc c => acc * 16 + (hexDigitVal c).getD 0) 0 = v :=
      by injection hv
    match digits, hlen with
    | [], _ => exact absurd rfl hnil
    | [a], _ =>
      have := hexDigitVal_getD_le a
      simp only [List.foldl_cons, List.foldl_nil] at hv'
      omega
    | [a, b], _ =>
      have ha := hexDigitVal_getD_le a
      have hb := hexDigitVal_getD_le b
      simp only [List.foldl_cons, List.foldl_nil] at hv'
      omega

theorem jsSubstring_length_le (l : List Char) (a b : ℕ) :
    (jsSubstring l a b).length ≤ b - a := by
  unfold jsSubstring
  rw [List.length_drop, List.length_take]
  omega

theorem getChannels_le_255 {s : String} {r g b : ℕ}
    (h : getChannels s = (some r, some g, some b)) :
    r ≤ 255 ∧ g ≤ 255 ∧ b ≤ 255 := by
  unfold getChannels at h
  dsimp only at h
  rw [Prod.mk.injEq, Prod.mk.injEq] at h
  obtain ⟨h1, h2, h3⟩ := h
  refine ⟨?_, ?_, ?_⟩
  · exact jsParseIntHex_le_255 (le_trans (jsSubstring_length_le _ 0 2) (by norm_num)) h1
  · exact jsParseIntHex_le_255 (le_trans (jsSubstring_length_le _ 2 4) (by norm_num)) h2
  · exact jsParseIntHex_le_255 (le_trans (jsSubstring_length_le _ 4 6) (by norm_num)) h3

theorem hexDigitVal_toHexChar {n : ℕ} (h : n < 16) :
    hexDigitVal (toHexChar n) = some n := by
  have h48 : ('0' : Char).toNat = 48 := rfl
  have h57 : ('9' : Char).toNat = 57 := rfl
  have h97 : ('a' : Char).toNat = 97 := rfl
  have h102 : ('f' : Char).toNat = 102 := rfl
  unfold toHexChar
  by_cases h10 : n < 10
  · rw [if_pos h10]
    have hval : (Char.ofNat ('0'.toNat + n)).toNat = '0'.toNat + n :=
      toNat_ofNat_valid (by omega)
    have hA : ('0' : Char) ≤ Char.ofNat ('0'.toNat + n) := by
      show ('0' : Char).toNat ≤ (Char.ofNat ('0'.toNat + n)).toNat
      rw [hval]
      omega
    have hB : Char.ofNat ('0'.toNat + n) ≤ ('9' : Char) := by
      show (Char.ofNat ('0'.toNat + n)).toNat ≤ ('9' : Char).toNat
      rw [hval]
      omega
    unfold hexDigitVal
    rw [if_pos ⟨hA, hB⟩, hval]
    congr 1
    omega
  · rw [if_neg h10]
    have hval : (Char.ofNat ('a'.toNat + n - 10)).toNat = 'a'.toNat + n - 10 :=
      toNat_ofNat_valid (by omega)
    have hN : ¬(('0' : Char) ≤ Char.ofNat ('a'.toNat + n - 10) ∧
        Char.ofNat ('a'.toNat + n - 10) ≤ ('9' : Char)) := by
      rintro ⟨h1, h2⟩
      have hb : (Char.ofNat ('a'.toNat + n - 10)).toNat ≤ ('9' : Char).toNat := h2
      rw [hval] at hb
      omega
    have hA : ('a' : Char) ≤ Char.ofNat ('a'.toNat + n - 10) := by
      show ('a' : Char).toNat ≤ (Char.ofNat ('a'.toNat + n - 10)).toNat
      rw [hval]
      omega
    have hB : Char.ofNat ('a'.toNat + n - 10) ≤ ('f' : Char) := by
      show (Char.ofNat ('a'.toNat + n - 10)).toNat ≤ ('f' : Char).toNat
      rw [hval]
      omega
    unfold hexDigitVal
    rw [if_neg hN, if_pos ⟨hA, hB⟩, hval]
    congr 1
    omega

theorem toHexDigitsAux_small {fuel n : ℕ} (hn : n < 16) (hf : 1 ≤ fuel) :
    toHexDigitsAux fuel n = [toHexChar n] := by
  match fuel, hf with
  | f + 1, _ =>
    unfold toHexDigitsAux
    rw [if_pos hn]

theorem toHexDigits_small {n : ℕ} (hn : n < 16) :
    toHexDigits n = [toHexChar n] := by
  unfold toHexDigits
  exact toHexDigitsAux_small hn (by omega)

theorem toHexDigits_two {n : ℕ} (h16 : 16 ≤ n) (h255 : n ≤ 255) :
    toHexDigits n = [toHexChar (n / 16), toHexChar (n % 16)] := by
  unfold toHexDigits
  match n, h16 with
  | m + 16, _ =>
    unfold toHexDigitsAux
    rw [if_neg (by omega)]
    rw [toHexDigitsAux_small (by omega) (by omega)]
    rfl

theorem jsParseIntHex_pair {a b : Char} {va vb : ℕ}
    (ha : hexDigitVal a = some va) (hb : hexDigitVal b = some vb) :
    jsParseIntHex [a, b] = some (va * 16 + vb) := by
  have hta : (hexDigitVal a).isSome = true := by rw [ha]; rfl
  have htb : (hexDigitVal b).isSome = true := by rw [hb]; rfl
  have htake : List.takeWhile (fun c => (hexDigitVal c).isSome) [a, b] = [a, b] := by
    simp [List.takeWhile_cons, hta, htb]
  unfold jsParseIntHex
  dsimp only
  rw [htake, if_neg (by simp)]
  simp only [List.foldl_cons, List.foldl_nil, ha, hb, Option.getD_some]
  norm_num

/-- `ch.toString(16).padStart(2, "0")` of an in-range channel has exactly
two hex digits and parses back to the channel value. -/
theorem renderChannel_spec {v : ℤ} (h0 : 0 ≤ v) (h255 : v ≤ 255) :
    (renderChannel (some v)).length = 2 ∧
      jsParseIntHex (renderChannel (some v)) = some v.toNat := by
  unfold renderChannel
  dsimp only
  have hv255 : v.toNat ≤ 255 := by omega
  by_cases h16 : v.toNat < 16
  · rw [toHexDigits_small h16]
    rw [if_pos (by norm_num)]
    refine ⟨rfl, ?_⟩
    have h0d : hexDigitVal '0' = some 0 := by decide
    rw [jsParseIntHex_pair h0d (hexDigitVal_toHexChar h16)]
    norm_num
  · rw [toHexDigits_two (by omega) hv255]
    rw [if_neg (by norm_num)]
    refine ⟨rfl, ?_⟩
    rw [jsParseIntHex_pair (hexDigitVal_toHexChar (by omega))
      (hexDigitVal_toHexChar (Nat.mod_lt _ (by norm_num)))]
    congr 1
    omega

theorem expandHex3_six {l : List Char} (h : l.length = 6) : expandHex3 l = l := by
  match l, h with
  | [a, b, c, d, e, f], _ => rfl

/-- Parsing the channels back out of `"#" ++ A ++ B ++ C` with `A`, `B`,
`C` of length two. -/
theorem getChannels_hash_triple {A B C : List Char}
    (hA : A.length = 2) (hB : B.length = 2) (hC : C.length = 2) :
    getChannels (String.mk ('#' :: (A ++ B ++ C))) =
      (jsParseIntHex A, jsParseIntHex B, jsParseIntHex C) := by
  obtain ⟨a1, a2, rfl⟩ := List.length_eq_two.mp hA
  obtain ⟨b1, b2, rfl⟩ := List.length_eq_two.mp hB
  obtain ⟨c1, c2, rfl⟩ := List.length_eq_two.mp hC
  rfl

/-- `adjustColor` followed by re-parsing recovers the clamped channels. -/
theorem getChannels_adjustColor {s : String} {r g b : ℕ}
    (hch : getChannels s = (some r, some g, some b)) (amt : ℤ) :
    getChannels (adjustColor s amt) =
      (some (min 255 (max 0 ((r : ℤ) + amt))).toNat,
       some (min 255 (max 0 ((g : ℤ) + amt))).toNat,
       some (min 255 (max 0 ((b : ℤ) + amt))).toNat) := by
  have hadj : adjustColor s amt =
      String.mk ('#' :: (renderChannel (some (min 255 (max 0 ((r : ℤ) + amt)))) ++
        renderChannel (some (min 255 (max 0 ((g : ℤ) + amt)))) ++
        renderChannel (some (min 255 (max 0 ((b : ℤ) + amt)))))) := by
    unfold adjustColor
    rw [hch]
    rfl
  obtain ⟨hlr, hpr⟩ := renderChannel_spec
    (le_min (by norm_num) (le_max_left 0 ((r : ℤ) + amt))) (min_le_left _ _)
  obtain ⟨hlg, hpg⟩ := renderChannel_spec
    (le_min (by norm_num) (le_max_left 0 ((g : ℤ) + amt))) (min_le_left _ _)
  obtain ⟨hlb, hpb⟩ := renderChannel_spec
    (le_min (by norm_num) (le_max_left 0 ((b : ℤ) + amt))) (min_le_left _ _)
  rw [hadj, getChannels_hash_triple hlr hlg hlb, hpr, hpg, hpb]

/-! The sRGB linearization on channel-byte values `n / 255`: branch
selection, positivity, the junction bound between the linear segment and
the gamma segment, and strict monotonicity on the byte grid. -/

theorem srgbLinear_grid_low {n : ℕ} (h : n ≤ 10) :
    srgbLinear ((n : ℚ) / 255) = ((n : ℝ) / 255) / 12.92 := by
  unfold srgbLinear
  rw [if_pos ?low]
  case low =>
    rw [div_le_iff₀ (by norm_num : (0:ℚ) < 255)]
    have : (n : ℚ) ≤ 10 := by exact_mod_cast h
    linarith
  push_cast
  ring

theorem srgbLinear_grid_high {n : ℕ} (h : 11 ≤ n) :
    srgbLinear ((n : ℚ) / 255) =
      (((n : ℝ) / 255 + 0.055) / 1.055) ^ (2.4 : ℝ) := by
  unfold srgbLinear
  rw [if_neg ?high]
  case high =>
    rw [not_le, lt_div_iff₀ (by norm_num : (0:ℚ) < 255)]
    have : (11 : ℚ) ≤ (n : ℚ) := by exact_mod_cast h
    linarith
  norm_num

theorem srgbLinear_nonneg {n : ℕ} : 0 ≤ srgbLinear ((n : ℚ) / 255) := by
  unfold srgbLinear
  split
  · positivity
  · apply Real.rpow_nonneg
    positivity

theorem rpow_24_le_base {x : ℝ} (h0 : 0 < x) (h1 : x ≤ 1) :
    x ^ (2.4 : ℝ) ≤ x := by
  calc x ^ (2.4:ℝ) ≤ x ^ (1:ℝ) :=
        Real.rpow_le_rpow_of_exponent_ge h0 h1 (by norm_num)
  _ = x := Real.rpow_one x

theorem cube_le_rpow_24 {x : ℝ} (h0 : 0 < x) (h1 : x ≤ 1) :
    x ^ (3 : ℕ) ≤ x ^ (2.4 : ℝ) := by
  have h := Real.rpow_le_rpow_of_exponent_ge h0 h1
    (show (2.4:ℝ) ≤ ((3:ℕ):ℝ) by norm_num)
  rwa [Real.rpow_natCast] at h

theorem junction_bound :
    ((10 : ℝ) / 255) / 12.92 < (((11 : ℝ) / 255 + 0.055) / 1.055) ^ (2.4 : ℝ) := by
  set x : ℝ := ((11 : ℝ) / 255 + 0.055) / 1.055 with hx
  have hxval : x = 1001 / 10761 := by rw [hx]; norm_num
  have hxpos : 0 < x := by rw [hxval]; norm_num
  by_contra hle
  push_neg at hle
  have h5 : (x ^ (2.4:ℝ)) ^ (5:ℕ) ≤ (((10:ℝ)/255)/12.92) ^ (5:ℕ) :=
    pow_le_pow_left₀ (Real.rpow_nonneg (le_of_lt hxpos) _) hle 5
  have h12 : (x ^ (2.4:ℝ)) ^ (5:ℕ) = x ^ (12:ℕ) := by
    rw [← Real.rpow_natCast (x ^ (2.4:ℝ)) 5, ← Real.rpow_mul (le_of_lt hxpos)]
    rw [show (2.4:ℝ) * ((5:ℕ):ℝ) = ((12:ℕ):ℝ) by norm_num, Real.rpow_natCast]
  rw [h12, hxval] at h5
  norm_num at h5

theorem gamma_base_pos {n : ℕ} : (0:ℝ) < (n : ℝ) / 255 + 0.055 := by positivity

theorem gamma_base_le_one {n : ℕ} (h : n ≤ 255) :
    ((n : ℝ) / 255 + 0.055) / 1.055 ≤ 1 := by
  have : (n : ℝ) ≤ 255 := by exact_mod_cast h
  rw [div_le_one (by norm_num)]
  linarith

theorem srgbLinear_grid_strict {na nb : ℕ} (hlt : na < nb) (hb : nb ≤ 255) :
    srgbLinear ((na : ℚ) / 255) < srgbLinear ((nb : ℚ) / 255) := by
  by_cases hb10 : nb ≤ 10
  · rw [srgbLinear_grid_low (by omega), srgbLinear_grid_low hb10]
    gcongr
  · by_cases ha10 : na ≤ 10
    · rw [srgbLinear_grid_low ha10, srgbLinear_grid_high (by omega)]
      have hstep1 : ((na : ℝ) / 255) / 12.92 ≤ ((10 : ℝ) / 255) / 12.92 := by
        gcongr
        exact_mod_cast ha10
      have hstep2 : (((11:ℝ)/255 + 0.055)/1.055) ^ (2.4:ℝ) ≤
          (((nb : ℝ)/255 + 0.055)/1.055) ^ (2.4:ℝ) := by
        apply Real.rpow_le_rpow (by positivity) ?_ (by norm_num)
        gcongr
        exact_mod_cast (by omega : 11 ≤ nb)
      calc ((na : ℝ) / 255) / 12.92 ≤ ((10 : ℝ) / 255) / 12.92 := hstep1
      _ < (((11:ℝ)/255 + 0.055)/1.055) ^ (2.4:ℝ) := junction_bound
      _ ≤ _ := hstep2
    · rw [srgbLinear_grid_high (by omega), srgbLinear_grid_high (by omega)]
      apply Real.rpow_lt_rpow (by positivity) ?_ (by norm_num)
      gcongr

theorem srgbLinear_grid_mono {na nb : ℕ} (hle : na ≤ nb) (hb : nb ≤ 255) :
    srgbLinear ((na : ℚ) / 255) ≤ srgbLinear ((nb : ℚ) / 255) := by
  rcases Nat.lt_or_ge na nb with h | h
  · exact le_of_lt (srgbLinear_grid_strict h hb)
  · have : na = nb := by omega
    rw [this]

theorem srgbLinear_ge_half {n : ℕ} (h206 : 206 ≤ n) (h255 : n ≤ 255) :
    (1/2 : ℝ) ≤ srgbLinear ((n : ℚ) / 255) := by
  rw [srgbLinear_grid_high (by omega)]
  have hx0 : (0:ℝ) < ((n : ℝ)/255 + 0.055)/1.055 := by positivity
  have hx1 : ((n : ℝ)/255 + 0.055)/1.055 ≤ 1 := gamma_base_le_one h255
  have hlo : (8801/10761 : ℝ) ≤ ((n : ℝ)/255 + 0.055)/1.055 := by
    have : (206:ℝ) ≤ (n : ℝ) := by exact_mod_cast h206
    rw [le_div_iff₀ (by norm_num)]
    have h2 : (206:ℝ)/255 ≤ (n:ℝ)/255 := by linarith
    norm_num
    linarith
  calc (1/2 : ℝ) ≤ (8801/10761 : ℝ) ^ (3:ℕ) := by norm_num
  _ ≤ (((n : ℝ)/255 + 0.055)/1.055) ^ (3:ℕ) :=
      pow_le_pow_left₀ (by norm_num) hlo 3
  _ ≤ (((n : ℝ)/255 + 0.055)/1.055) ^ (2.4:ℝ) := cube_le_rpow_24 hx0 hx1

theorem getLuminance_channels {s : String} {r g b : ℕ}
    (h : getChannels s = (some r, some g, some b)) :
    getLuminance s =
      some (0.2126 * srgbLinear ((r : ℚ) / 255) +
        0.7152 * srgbLinear ((g : ℚ) / 255) +
        0.0722 * srgbLinear ((b : ℚ) / 255)) := by
  unfold getLuminance
  rw [h]

theorem srgbLinear_lt_half {n : ℕ} (h : n ≤ 120) :
    srgbLinear ((n : ℚ) / 255) < (1/2 : ℝ) := by
  by_cases h10 : n ≤ 10
  · rw [srgbLinear_grid_low h10]
    have h10r : (n : ℝ) ≤ 10 := by exact_mod_cast h10
    calc ((n : ℝ) / 255) / 12.92 ≤ ((10 : ℝ) / 255) / 12.92 := by
          gcongr
    _ < 1/2 := by norm_num
  · rw [srgbLinear_grid_high (by omega)]
    have hx0 : (0:ℝ) < ((n : ℝ)/255 + 0.055)/1.055 := by positivity
    have hn : (n : ℝ) ≤ 120 := by exact_mod_cast h
    have hx1 : ((n : ℝ)/255 + 0.055)/1.055 ≤ 1 := by
      rw [div_le_one (by norm_num)]
      nlinarith
    calc (((n : ℝ)/255 + 0.055)/1.055) ^ (2.4:ℝ) ≤
          ((n : ℝ)/255 + 0.055)/1.055 := rpow_24_le_base hx0 hx1
    _ < 1/2 := by
        rw [div_lt_iff₀ (by norm_num)]
        nlinarith



theorem exists_dark_channel {r g b : ℕ} (hr : r ≤ 255) (hg : g ≤ 255)
    (hb : b ≤ 255)
    (hL : 0.2126 * srgbLinear ((r : ℚ) / 255) +
      0.7152 * srgbLinear ((g : ℚ) / 255) +
      0.0722 * srgbLinear ((b : ℚ) / 255) < 1/2) :
    r ≤ 205 ∨ g ≤ 205 ∨ b ≤ 205 := by
  by_contra hcon
  push_neg at hcon
  obtain ⟨h1, h2, h3⟩ := hcon
  have e1 := srgbLinear_ge_half (by omega) hr
  have e2 := srgbLinear_ge_half (by omega) hg
  have e3 := srgbLinear_ge_half (by omega) hb
  linarith

theorem exists_light_channel {r g b : ℕ}
    (hL : (1/2 : ℝ) ≤ 0.2126 * srgbLinear ((r : ℚ) / 255) +
      0.7152 * srgbLinear ((g : ℚ) / 255) +
      0.0722 * srgbLinear ((b : ℚ) / 255)) :
    50 ≤ r ∨ 50 ≤ g ∨ 50 ≤ b := by
  by_contra hcon
  push_neg at hcon
  obtain ⟨h1, h2, h3⟩ := hcon
  have e1 := srgbLinear_lt_half (show r ≤ 120 by omega)
  have e2 := srgbLinear_lt_half (show g ≤ 120 by omega)
  have e3 := srgbLinear_lt_half (show b ≤ 120 by omega)
  have n1 := @srgbLinear_nonneg r
  have n2 := @srgbLinear_nonneg g
  have n3 := @srgbLinear_nonneg b
  linarith

theorem clamp_up (r : ℕ) (h : r ≤ 255) :
    (min 255 (max 0 ((r : ℤ) + 50))).toNat = min 255 (r + 50) := by omega

theorem clamp_down (r : ℕ) (h : r ≤ 255) :
    (min 255 (max 0 ((r : ℤ) + -50))).toNat = r - 50 := by omega

theorem lum_increase {r g b : ℕ} (hr : r ≤ 255) (hg : g ≤ 255) (hb : b ≤ 255)
    (hchan : r ≤ 205 ∨ g ≤ 205 ∨ b ≤ 205) :
    0.2126 * srgbLinear ((r : ℚ) / 255) +
      0.7152 * srgbLinear ((g : ℚ) / 255) +
      0.0722 * srgbLinear ((b : ℚ) / 255) <
    0.2126 * srgbLinear ((min 255 (r + 50) : ℕ) / 255 : ℚ) +
      0.7152 * srgbLinear ((min 255 (g + 50) : ℕ) / 255 : ℚ) +
      0.0722 * srgbLinear ((min 255 (b + 50) : ℕ) / 255 : ℚ) := by
  have mr : srgbLinear ((r : ℚ) / 255) ≤
      srgbLinear ((min 255 (r + 50) : ℕ) / 255 : ℚ) :=
    srgbLinear_grid_mono (by omega) (by omega)
  have mg : srgbLinear ((g : ℚ) / 255) ≤
      srgbLinear ((min 255 (g + 50) : ℕ) / 255 : ℚ) :=
    srgbLinear_grid_mono (by omega) (by omega)
  have mb : srgbLinear ((b : ℚ) / 255) ≤
      srgbLinear ((min 255 (b + 50) : ℕ) / 255 : ℚ) :=
    srgbLinear_grid_mono (by omega) (by omega)
  rcases hchan with hc | hc | hc
  · have s1 : srgbLinear ((r : ℚ) / 255) <
        srgbLinear ((min 255 (r + 50) : ℕ) / 255 : ℚ) :=
      srgbLinear_grid_strict (by omega) (by omega)
    linarith
  · have s1 : srgbLinear ((g : ℚ) / 255) <
        srgbLinear ((min 255 (g + 50) : ℕ) / 255 : ℚ) :=
      srgbLinear_grid_strict (by omega) (by omega)
    linarith
  · have s1 : srgbLinear ((b : ℚ) / 255) <
        srgbLinear ((min 255 (b + 50) : ℕ) / 255 : ℚ) :=
      srgbLinear_grid_strict (by omega) (by omega)
    linarith

theorem lum_decrease {r g b : ℕ} (hr : r ≤ 255) (hg : g ≤ 255) (hb : b ≤ 255)
    (hchan : 50 ≤ r ∨ 50 ≤ g ∨ 50 ≤ b) :
    0.2126 * srgbLinear ((r - 50 : ℕ) / 255 : ℚ) +
      0.7152 * srgbLinear ((g - 50 : ℕ) / 255 : ℚ) +
      0.0722 * srgbLinear ((b - 50 : ℕ) / 255 : ℚ) <
    0.2126 * srgbLinear ((r : ℚ) / 255) +
      0.7152 * srgbLinear ((g : ℚ) / 255) +
      0.0722 * srgbLinear ((b : ℚ) / 255) := by
  have mr : srgbLinear ((r - 50 : ℕ) / 255 : ℚ) ≤ srgbLinear ((r : ℚ) / 255) :=
    srgbLinear_grid_mono (by omega) hr
  have mg : srgbLinear ((g - 50 : ℕ) / 255 : ℚ) ≤ srgbLinear ((g : ℚ) / 255) :=
    srgbLinear_grid_mono (by omega) hg
  have mb : srgbLinear ((b - 50 : ℕ) / 255 : ℚ) ≤ srgbLinear ((b : ℚ) / 255) :=
    srgbLinear_grid_mono (by omega) hb
  rcases hchan with hc | hc | hc
  · have s1 : srgbLinear ((r - 50 : ℕ) / 255 : ℚ) <
        srgbLinear ((r : ℚ) / 255) :=
      srgbLinear_grid_strict (by omega) hr
    linarith
  · have s1 : srgbLinear ((g - 50 : ℕ) / 255 : ℚ) <
        srgbLinear ((g : ℚ) / 255) :=
      srgbLinear_grid_strict (by omega) hg
    linarith
  · have s1 : srgbLinear ((b - 50 : ℕ) / 255 : ℚ) <
        srgbLinear ((b : ℚ) / 255) :=
      srgbLinear_grid_strict (by omega) hb
    linarith

/-- C6 as amended: when a period color parses, the derived note color
moves strictly AWAY from the period color in luminance — strictly lighter
for a dark period color (luminance < 0.5), strictly darker for a light one
(luminance ≥ 0.5).  It does NOT in general cross to the other side of the
0.5 threshold.  An absent period color returns the fallback unchanged. -/
theorem note_color_contrast :
    (∀ (pc fb : String) (r g b : ℕ),
      getChannels pc = (some r, some g, some b) →
      ∀ L : ℝ, getLuminance pc = some L →
      (L < 1/2 →
        ∃ L2, getLuminance (getNoteColor (some pc) fb) = some L2 ∧ L < L2) ∧
      (1/2 ≤ L →
        ∃ L2, getLuminance (getNoteColor (some pc) fb) = some L2 ∧ L2 < L)) ∧
    (∀ fb, getNoteColor none fb = fb) := by
  constructor
  · intro pc fb r g b hch L hL
    obtain ⟨hr, hg, hb⟩ := getChannels_le_255 hch
    have hlum := getLuminance_channels hch
    rw [hL] at hlum
    have hLval : L = 0.2126 * srgbLinear ((r : ℚ) / 255) +
        0.7152 * srgbLinear ((g : ℚ) / 255) +
        0.0722 * srgbLinear ((b : ℚ) / 255) := by
      injection hlum
    have hpc : ¬pc = "" := by
      intro hemp
      rw [hemp] at hch
      have : getChannels "" = (none, none, none) := rfl
      rw [this] at hch
      simp at hch
    constructor
    · intro hdark
      have hopt : optLt (getLuminance pc) LIGHT_COLOR_THRESHOLD :=
        ⟨L, hL, by unfold LIGHT_COLOR_THRESHOLD; linarith⟩
      have hnote : getNoteColor (some pc) fb = adjustColor pc COLOR_LIGHTEN_AMOUNT := by
        unfold getNoteColor
        dsimp only
        rw [if_neg hpc, if_pos hopt]
      have hch2 := getChannels_adjustColor hch COLOR_LIGHTEN_AMOUNT
      rw [show COLOR_LIGHTEN_AMOUNT = (50 : ℤ) from rfl] at hch2
      rw [clamp_up r hr, clamp_up g hg, clamp_up b hb] at hch2
      rw [hnote]
      refine ⟨_, getLuminance_channels hch2, ?_⟩
      rw [hLval]
      exact lum_increase hr hg hb
        (exists_dark_channel hr hg hb (by rw [← hLval]; exact hdark))
    · intro hlight
      have hopt : ¬optLt (getLuminance pc) LIGHT_COLOR_THRESHOLD := by
        rintro ⟨x, hx, hxlt⟩
        rw [hL] at hx
        have hxL : L = x := by injection hx
        rw [← hxL] at hxlt
        unfold LIGHT_COLOR_THRESHOLD at hxlt
        linarith
      have hnote : getNoteColor (some pc) fb =
          adjustColor pc (-COLOR_LIGHTEN_AMOUNT) := by
        unfold getNoteColor
        dsimp only
        rw [if_neg hpc, if_neg hopt]
      have hch2 := getChannels_adjustColor hch (-COLOR_LIGHTEN_AMOUNT)
      rw [show -COLOR_LIGHTEN_AMOUNT = (-50 : ℤ) from rfl] at hch2
      rw [clamp_down r hr, clamp_down g hg, clamp_down b hb] at hch2
      rw [hnote]
      refine ⟨_, getLuminance_channels hch2, ?_⟩
      rw [hLval]
      exact lum_decrease hr hg hb
        (exists_light_channel (by rw [← hLval]; exact hlight))
  · intro fb
    rfl

/-- C6 counterexample: the claim that the derived note color always lands
on the OTHER side of the 0.5 luminance threshold is false — for the dark
period color `#000000` (luminance 0, below the threshold) the derived note
color is `#323232`, whose luminance is still below the threshold. -/
theorem note_color_same_side :
    optLt (getLuminance "#000000") LIGHT_COLOR_THRESHOLD ∧
    getNoteColor (some "#000000") SQUARE_NOTE_COLOR = "#323232" ∧
    optLt (getLuminance "#323232") LIGHT_COLOR_THRESHOLD := by
  refine ⟨optLt_lum_black, ?_, ?_⟩
  · unfold getNoteColor
    dsimp only
    rw [if_neg (by decide : ¬("#000000" : String) = "")]
    rw [if_pos optLt_lum_black]
    decide
  · have hch : getChannels "#323232" = (some 50, some 50, some 50) := by decide
    have hlum := getLuminance_channels hch
    refine ⟨_, hlum, ?_⟩
    have h50 := srgbLinear_lt_half (show (50 : ℕ) ≤ 120 by norm_num)
    unfold LIGHT_COLOR_THRESHOLD
    linarith

/-- Witness for C6's amended statement: the dark period color `#000000`
(luminance 0) yields a note color with strictly larger luminance, and an
absent period color returns the fallback unchanged. -/
theorem note_color_contrast_witness :
    (∃ L2, getLuminance (getNoteColor (some "#000000") SQUARE_NOTE_COLOR) =
      some L2 ∧ (0 : ℝ) < L2) ∧
    getNoteColor none SQUARE_NOTE_COLOR = SQUARE_NOTE_COLOR :=
  ⟨(note_color_contrast.1 "#000000" SQUARE_NOTE_COLOR 0 0 0 (by decide) 0
      getLuminance_black).1 (by norm_num),
   note_color_contrast.2 SQUARE_NOTE_COLOR⟩

/-! ## C5 — age monotonicity and exact anniversaries -/

theorem getTime_lt_iff {a c : Date} :
    getTime a < getTime c ↔ dayNumber a < dayNumber c := by
  unfold getTime msPerDay
  rw [mul_lt_mul_right (by norm_num : (0:ℚ) < 1000 * 60 * 60 * 24)]
  exact Int.cast_lt

theorem getTime_le_iff {a c : Date} :
    getTime a ≤ getTime c ↔ dayNumber a ≤ dayNumber c := by
  unfold getTime msPerDay
  rw [mul_le_mul_right (by norm_num : (0:ℚ) < 1000 * 60 * 60 * 24)]
  exact Int.cast_le

theorem getTime_ratio (x y u v : Date) :
    (getTime x - getTime y) / (getTime u - getTime v) =
      ((dayNumber x : ℚ) - (dayNumber y : ℚ)) /
        ((dayNumber u : ℚ) - (dayNumber v : ℚ)) := by
  unfold getTime
  rw [← sub_mul, ← sub_mul,
    mul_div_mul_right _ _ (by norm_num [msPerDay] : msPerDay ≠ 0)]

/-- The age value in terms of day numbers (the millisecond factor in the
quotient cancels). -/
theorem calcAgeExact_eq (b t : Date) :
    calcAgeExact b t =
      if dayNumber t < dayNumber (thisYearBirthday b t) then
        max 0 (((t.year : ℚ) - (b.year : ℚ) - 1) +
          ((dayNumber t : ℚ) - (dayNumber ⟨t.year - 1, b.month, b.day⟩ : ℚ)) /
          ((dayNumber (thisYearBirthday b t) : ℚ) -
            (dayNumber ⟨t.year - 1, b.month, b.day⟩ : ℚ)))
      else
        max 0 (((t.year : ℚ) - (b.year : ℚ)) +
          ((dayNumber t : ℚ) - (dayNumber (thisYearBirthday b t) : ℚ)) /
          ((dayNumber ⟨t.year + 1, b.month, b.day⟩ : ℚ) -
            (dayNumber (thisYearBirthday b t) : ℚ))) := by
  unfold calcAgeExact
  dsimp only
  by_cases hlt : getTime t < getTime (thisYearBirthday b t)
  · rw [if_pos hlt, if_neg (not_le.mpr hlt), if_neg (not_le.mpr hlt),
      if_pos (getTime_lt_iff.mp hlt)]
    rw [getTime_ratio]
    push_cast
    ring_nf
  · rw [if_neg hlt, if_pos (not_lt.mp hlt), if_pos (not_lt.mp hlt),
      if_neg (fun hc => hlt (getTime_lt_iff.mpr hc))]
    rw [getTime_ratio]
    push_cast
    ring_nf

theorem daysBeforeMonth_mono (y : ℕ) {m1 m2 : ℕ} (h : m1 ≤ m2) :
    daysBeforeMonth y m1 ≤ daysBeforeMonth y m2 := by
  induction m2 with
  | zero =>
    have h0 : m1 = 0 := Nat.le_zero.mp h
    rw [h0]
  | succ m ih =>
    rcases Nat.lt_or_ge m1 (m + 1) with hlt | hge
    · have h1 := ih (by omega)
      have hstep : daysBeforeMonth y (m + 1) =
          daysBeforeMonth y m + daysInMonth y m := rfl
      omega
    · have : m1 = m + 1 := by omega
      rw [this]

theorem daysBeforeMonth_twelve (y : ℕ) :
    daysBeforeMonth y 12 = daysInYear y := by
  cases h : isLeapYear y <;>
    simp [daysBeforeMonth, daysInMonth, daysInYear, h]

theorem daysBeforeMonth_eleven (y : ℕ) :
    daysBeforeMonth y 11 + 31 = daysInYear y := by
  cases h : isLeapYear y <;>
    simp [daysBeforeMonth, daysInMonth, daysInYear, h]

theorem daysInMonth_dec (y : ℕ) : daysInMonth y 11 = 31 := rfl

/-- Every structurally valid date of year `y` has its day number in
`[daysBeforeYear y, daysBeforeYear (y + 1) - 1]`. -/
theorem dayNumber_bounds {t : Date} (h : ValidDate t) :
    (daysBeforeYear t.year : ℤ) ≤ dayNumber t ∧
      dayNumber t ≤ (daysBeforeYear (t.year + 1) : ℤ) - 1 := by
  obtain ⟨hm, hd1, hd2⟩ := h
  unfold dayNumber
  have hy1 : daysBeforeYear (t.year + 1) = daysBeforeYear t.year + daysInYear t.year := rfl
  constructor
  · have : 0 ≤ (daysBeforeMonth t.year t.month : ℤ) := by positivity
    omega
  · have hsucc : daysBeforeMonth t.year t.month + daysInMonth t.year t.month =
        daysBeforeMonth t.year (t.month + 1) := rfl
    have hmono := daysBeforeMonth_mono t.year (show t.month + 1 ≤ 12 by omega)
    have h12 := daysBeforeMonth_twelve t.year
    omega

/-- A birthday anniversary also lies within its calendar year (using only
`month ≤ 11` and `1 ≤ day ≤ 31`). -/
theorem anniversary_bounds {b : Date} (hb : ValidBirth b) (y : ℕ) :
    (daysBeforeYear y : ℤ) ≤ dayNumber ⟨y, b.month, b.day⟩ ∧
      dayNumber ⟨y, b.month, b.day⟩ ≤ (daysBeforeYear (y + 1) : ℤ) - 1 := by
  obtain ⟨hm, hd1, hd31⟩ := hb
  unfold dayNumber
  dsimp only
  have hy1 : daysBeforeYear (y + 1) = daysBeforeYear y + daysInYear y := rfl
  constructor
  · have : 0 ≤ (daysBeforeMonth y b.month : ℤ) := by positivity
    omega
  · have hmono := daysBeforeMonth_mono y (show b.month ≤ 11 by omega)
    have h11 := daysBeforeMonth_eleven y
    omega

theorem anniversary_strict_mono {b : Date} (hb : ValidBirth b) (y : ℕ) :
    dayNumber ⟨y, b.month, b.day⟩ < dayNumber ⟨y + 1, b.month, b.day⟩ := by
  have h1 := (anniversary_bounds hb y).2
  have h2 := (anniversary_bounds hb (y + 1)).1
  omega

theorem dayNumber_nextDate {t : Date} (h : ValidDate t) :
    dayNumber (nextDate t) = dayNumber t + 1 := by
  obtain ⟨hm, hd1, hd2⟩ := h
  unfold nextDate
  split
  next hlt =>
    unfold dayNumber
    dsimp only
    omega
  next hge =>
    split
    next hlt11 =>
      have hsucc : daysBeforeMonth t.year t.month + daysInMonth t.year t.month =
          daysBeforeMonth t.year (t.month + 1) := rfl
      unfold dayNumber
      dsimp only
      omega
    next hge11 =>
      have hm11 : t.month = 11 := by omega
      have hday : t.day = 31 := by
        rw [hm11] at hd2 hge
        rw [daysInMonth_dec] at hd2 hge
        omega
      have h11 := daysBeforeMonth_eleven t.year
      have hy1 : daysBeforeYear (t.year + 1) =
          daysBeforeYear t.year + daysInYear t.year := rfl
      unfold dayNumber
      dsimp only
      rw [hm11, hday]
      have h0 : daysBeforeMonth (t.year + 1) 0 = 0 := rfl
      omega

/-- Passing to the next date either stays in the same calendar year, or
crosses December 31, in which case the current day is the last of its
year. -/
theorem nextDate_year_cases {t : Date} (h : ValidDate t) :
    (nextDate t).year = t.year ∨
      ((nextDate t).year = t.year + 1 ∧
        dayNumber t = (daysBeforeYear (t.year + 1) : ℤ) - 1) := by
  obtain ⟨hm, hd1, hd2⟩ := h
  unfold nextDate
  split
  next hlt => exact Or.inl rfl
  next hge =>
    split
    next hlt11 => exact Or.inl rfl
    next hge11 =>
      refine Or.inr ⟨rfl, ?_⟩
      have hm11 : t.month = 11 := by omega
      rw [hm11] at hd2 hge
      rw [daysInMonth_dec] at hd2 hge
      have hday : t.day = 31 := by omega
      have h11 := daysBeforeMonth_eleven t.year
      have hy1 : daysBeforeYear (t.year + 1) =
          daysBeforeYear t.year + daysInYear t.year := rfl
      unfold dayNumber
      rw [hm11, hday]
      omega

/-- Within one age-year window the age expression grows with the day
number. -/
theorem age_mono_aux (C : ℚ) (A0 A1 N M : ℤ) (h01 : A0 < A1) (h : N ≤ M) :
    max 0 (C + ((N : ℚ) - (A0 : ℚ)) / ((A1 : ℚ) - (A0 : ℚ))) ≤
      max 0 (C + ((M : ℚ) - (A0 : ℚ)) / ((A1 : ℚ) - (A0 : ℚ))) := by
  have hd : (0 : ℚ) < (A1 : ℚ) - (A0 : ℚ) := by
    have h01' : (A0 : ℚ) < (A1 : ℚ) := by exact_mod_cast h01
    linarith
  have h' : (N : ℚ) ≤ (M : ℚ) := by exact_mod_cast h
  exact max_le_max le_rfl (by gcongr)

/-- Crossing a birthday boundary: a value strictly inside the previous
age-year window is at most the completed-years count attained after the
boundary. -/
theorem age_cross_aux (C : ℚ) (A0 A1 A2 N M : ℤ) (h01 : A0 < A1)
    (h12 : A1 < A2) (hN : N ≤ A1) (hM : A1 ≤ M) :
    max 0 (C - 1 + ((N : ℚ) - (A0 : ℚ)) / ((A1 : ℚ) - (A0 : ℚ))) ≤
      max 0 (C + ((M : ℚ) - (A1 : ℚ)) / ((A2 : ℚ) - (A1 : ℚ))) := by
  have hd1 : (0 : ℚ) < (A1 : ℚ) - (A0 : ℚ) := by
    have h01' : (A0 : ℚ) < (A1 : ℚ) := by exact_mod_cast h01
    linarith
  have hd2 : (0 : ℚ) < (A2 : ℚ) - (A1 : ℚ) := by
    have h12' : (A1 : ℚ) < (A2 : ℚ) := by exact_mod_cast h12
    linarith
  have hfrac : ((N : ℚ) - (A0 : ℚ)) / ((A1 : ℚ) - (A0 : ℚ)) ≤ 1 := by
    rw [div_le_one hd1]
    have hN' : (N : ℚ) ≤ (A1 : ℚ) := by exact_mod_cast hN
    linarith
  have hfrac2 : 0 ≤ ((M : ℚ) - (A1 : ℚ)) / ((A2 : ℚ) - (A1 : ℚ)) := by
    apply div_nonneg _ (le_of_lt hd2)
    have hM' : (A1 : ℚ) ≤ (M : ℚ) := by exact_mod_cast hM
    linarith
  refine max_le_max le_rfl ?_
  linarith

/-- One calendar day forward never decreases the exact age value. -/
theorem calcAge_step {b t : Date} (hb : ValidBirth b) (ht : ValidDate t)
    (hy : 1 ≤ t.year) :
    calcAgeExact b t ≤ calcAgeExact b (nextDate t) := by
  have hN' := dayNumber_nextDate ht
  have hstrict0 : dayNumber ⟨t.year - 1, b.month, b.day⟩ <
      dayNumber ⟨t.year, b.month, b.day⟩ := by
    have h := anniversary_strict_mono hb (t.year - 1)
    rwa [Nat.sub_add_cancel hy] at h
  have hstrict1 := anniversary_strict_mono hb t.year
  have hstrict2 := anniversary_strict_mono hb (t.year + 1)
  rw [calcAgeExact_eq, calcAgeExact_eq]
  simp only [thisYearBirthday]
  rw [hN']
  rcases nextDate_year_cases ht with hsame | ⟨hinc, hlast⟩
  · rw [hsame]
    by_cases c2 : dayNumber t + 1 < dayNumber ⟨t.year, b.month, b.day⟩
    · have c1 : dayNumber t < dayNumber ⟨t.year, b.month, b.day⟩ := by omega
      rw [if_pos c1, if_pos c2]
      exact age_mono_aux _ _ _ _ _ hstrict0 (by omega)
    · by_cases c1 : dayNumber t < dayNumber ⟨t.year, b.month, b.day⟩
      · rw [if_pos c1, if_neg c2]
        exact age_cross_aux _ _ _ _ _ _ hstrict0 hstrict1 (by omega) (by omega)
      · rw [if_neg c1, if_neg c2]
        exact age_mono_aux _ _ _ _ _ hstrict1 (by omega)
  · rw [hinc]
    simp only [Nat.add_sub_cancel]
    have hAb1 := anniversary_bounds hb t.year
    have hAb2 := anniversary_bounds hb (t.year + 1)
    rw [if_neg (show ¬dayNumber t < dayNumber ⟨t.year, b.month, b.day⟩ by
      omega)]
    by_cases c2 : dayNumber t + 1 < dayNumber ⟨t.year + 1, b.month, b.day⟩
    · rw [if_pos c2]
      have hC1 : ((t.year + 1 : ℕ) : ℚ) - (b.year : ℚ) - 1 =
          (t.year : ℚ) - (b.year : ℚ) := by
        push_cast
        ring
      rw [hC1]
      exact age_mono_aux _ _ _ _ _ hstrict1 (by omega)
    · rw [if_neg c2]
      have hC2 : (t.year : ℚ) - (b.year : ℚ) =
          ((t.year + 1 : ℕ) : ℚ) - (b.year : ℚ) - 1 := by
        push_cast
        ring
      rw [hC2]
      exact age_cross_aux _ _ _ _ _ _ hstrict1 hstrict2 (by omega) (by omega)

/-- Advancing any number of days never decreases the exact age value. -/
theorem calcAge_mono_advance {b t : Date} (hb : ValidBirth b)
    (ht : ValidDate t) (hy : 1 ≤ t.year) (n : ℕ) :
    calcAgeExact b t ≤ calcAgeExact b (advance n t) := by
  induction n with
  | zero => exact le_refl _
  | succ n ih =>
    have hv : ValidDate (advance n t) := valid_advance ht n
    have hyr : 1 ≤ (advance n t).year := by
      have hya := year_advance ht n
      omega
    have hadv : advance (n + 1) t = nextDate (advance n t) := by
      unfold advance
      rw [Function.iterate_succ_apply']
    rw [hadv]
    exact le_trans ih (calcAge_step hb hv hyr)

/-- On an exact anniversary the age value is the whole number of completed
years. -/
theorem calcAgeExact_anniversary {b : Date} (hb : ValidBirth b) (k : ℕ) :
    calcAgeExact b ⟨b.year + k, b.month, b.day⟩ = (k : ℚ) := by
  rw [calcAgeExact_eq]
  simp only [thisYearBirthday]
  rw [if_neg (lt_irrefl _)]
  rw [sub_self, zero_div, add_zero]
  rw [max_eq_right (by
    push_cast
    linarith [show (0 : ℚ) ≤ (k : ℚ) from Nat.cast_nonneg k])]
  push_cast
  ring

/-- On an exact anniversary `calculateAge` renders the completed years
with fractional digit `0`. -/
theorem calculateAge_anniversary {b : Date} (hb : ValidBirth b) (k : ℕ) :
    calculateAge b ⟨b.year + k, b.month, b.day⟩ =
      toString k ++ "." ++ "0" := by
  unfold calculateAge
  rw [calcAgeExact_anniversary hb k]
  unfold toFixed1
  dsimp only
  have hfl : ⌊(k : ℚ) * 10 + 1 / 2⌋ = (10 * k : ℤ) := by
    rw [Int.floor_eq_iff]
    constructor
    · push_cast
      linarith
    · push_cast
      linarith
  rw [hfl]
  have hq : (10 * (k : ℤ)) / 10 = (k : ℤ) := by omega
  have hr : (10 * (k : ℤ)) % 10 = 0 := by omega
  rw [hq, hr]
  rfl

/-- **C5**: for a fixed valid birth date, the exact age value computed by
`calculateAge` is non-decreasing as the target date advances day by day,
and at every exact birthday anniversary the rendered string is exactly the
whole number of completed years followed by ".0". -/
theorem calculateAge_monotone_anniversary :
    (∀ (b t : Date), ValidBirth b → ValidDate t → 1 ≤ t.year →
        ∀ n : ℕ, calcAgeExact b t ≤ calcAgeExact b (advance n t)) ∧
      ∀ (b : Date) (k : ℕ), ValidBirth b →
        calculateAge b ⟨b.year + k, b.month, b.day⟩ =
          toString k ++ "." ++ "0" :=
  ⟨fun _ _ hb ht hy n => calcAge_mono_advance hb ht hy n,
   fun _ k hb => calculateAge_anniversary hb k⟩

/-- The birth date 1990-05-15 and target 2015-05-15 (an exact anniversary)
give the claimed "25.0"; one day after 2015-05-14 the age value has not
decreased. -/
theorem calculateAge_monotone_anniversary_witness :
    calcAgeExact ⟨1990, 4, 15⟩ ⟨2015, 4, 14⟩ ≤
        calcAgeExact ⟨1990, 4, 15⟩ (advance 1 ⟨2015, 4, 14⟩) ∧
      calculateAge ⟨1990, 4, 15⟩ ⟨2015, 4, 15⟩ = "25.0" := by
  constructor
  · exact calculateAge_monotone_anniversary.1 ⟨1990, 4, 15⟩ ⟨2015, 4, 14⟩
      (by decide) (by decide) (by decide) 1
  · exact calculateAge_monotone_anniversary.2 ⟨1990, 4, 15⟩ 25 (by decide)
